import Mathlib

/-!
Verification development for the rule-driven ratings validation and
idempotent upsert pipeline (src/ratings_validation.py).

The embedding models a pandas DataFrame as a `Dataset`: an ordered list of
column names together with rows of positional cell values.  The externally
fetched rule bundle (clean_product_id, standardize_date, ...) is a record of
optional callables, mirroring the "name in globals()" checks of the script.
The relational store target of `upsert_data` is a list of rows aligned with
the staged frame's columns; the MySQL statements "INSERT ... ON DUPLICATE KEY
UPDATE col=VALUES(col)" and "INSERT IGNORE" are modelled row by row, in
order, per chunk.
-/

/-- A scalar cell value: null (NaN), a string, or a number.  Numeric CSV
columns are modelled with integers. -/
inductive Value
  | null
  | str (s : String)
  | num (n : Int)
deriving DecidableEq, Repr

/-- An in-memory table: ordered column names and rows of positional cells. -/
structure Dataset where
  cols : List String
  rows : List (List Value)
deriving DecidableEq, Repr

/- ## String helpers mirroring the Python string methods used by the script -/

/-- Python whitespace characters stripped by str.strip(). -/
def isPySpace (c : Char) : Bool :=
  c = ' ' || c = '\t' || c = '\n' || c = '\r' || c = '\x0b' || c = '\x0c'

/-- Python str.strip(): drop leading and trailing whitespace. -/
def stripStr (s : String) : String :=
  String.mk (((s.toList.dropWhile isPySpace).reverse.dropWhile isPySpace).reverse)

/-- Python str.lower() (ASCII range, as used for column names and file names). -/
def lowerStr (s : String) : String :=
  String.mk (s.toList.map Char.toLower)

/-- Column-name normalization of line 54: strip() then lower(). -/
def normName (s : String) : String :=
  lowerStr (stripStr s)

/-- Substring test: Python's "needle in hay". -/
def strContains (hay needle : String) : Bool :=
  let h := hay.toList
  let n := needle.toList
  (List.range (h.length + 1)).any (fun i => n.isPrefixOf (h.drop i))

/-- The generator test "any(x in file_name.lower() for x in lst)". -/
def matchesAny (lst : List String) (file_name : String) : Bool :=
  lst.any (fun x => strContains (lowerStr file_name) x)

/- ## Cell access on positional rows -/

/-- Value of the cell under column name c (first occurrence of the label),
null when the label is absent or the row is too short. -/
def cellAt : List String → List Value → String → Value
  | [], _, _ => .null
  | c' :: cs, vs, c => if c' = c then vs.headD .null else cellAt cs vs.tail c

/-- Rewrite the cells under column label c with f (pandas assigns through the
label); pads the row to the column count. -/
def setCellAtCol : List String → List Value → String → (Value → Value) → List Value
  | [], _, _, _ => []
  | c' :: cs, vs, c, f =>
    (if c' = c then f (vs.headD .null) else vs.headD .null) :: setCellAtCol cs vs.tail c f

/-- Canonical row of exactly one cell per column. -/
def padRow : List String → List Value → List Value
  | [], _ => []
  | _ :: cs, vs => vs.headD .null :: padRow cs vs.tail

/-- Apply f to every cell of column c. -/
def mapCol (d : Dataset) (c : String) (f : Value → Value) : Dataset :=
  { cols := d.cols, rows := d.rows.map (fun r => setCellAtCol d.cols r c f) }

/-- Broadcast assignment df[c] = v: overwrite the column when the label
exists, otherwise append it. -/
def addCol (d : Dataset) (c : String) (v : Value) : Dataset :=
  if c ∈ d.cols then
    { cols := d.cols, rows := d.rows.map (fun r => setCellAtCol d.cols r c (fun _ => v)) }
  else
    { cols := d.cols ++ [c], rows := d.rows.map (fun r => padRow d.cols r ++ [v]) }

/-- The list of values of column c. -/
def colVals (d : Dataset) (c : String) : List Value :=
  d.rows.map (fun r => cellAt d.cols r c)

/-- df[c].isnull().all() (vacuously true on an empty frame, as in pandas). -/
def allNullCol (d : Dataset) (c : String) : Bool :=
  (colVals d c).all (fun v => v = Value.null)

/-- Column selection df[cs]: keep the listed columns in the listed order. -/
def selectColsD (d : Dataset) (cs : List String) : Dataset :=
  { cols := cs, rows := d.rows.map (fun r => cs.map (cellAt d.cols r)) }

/-- Normalize all column names (line 54 of the script). -/
def normalizeCols (d : Dataset) : Dataset :=
  { cols := d.cols.map normName, rows := d.rows }

/- ## The rule bundle fetched from the object store

The validation callables are exec'd into globals() at run time
(load_validation_functions); apply_validations then tests each name with
"name in globals()".  The bundle is therefore modelled as a record of
optional callables, and the pipeline is generic in it.  Fallible rules
return Except: an error value is a raised exception's message. -/

structure Bundle where
  clean_product_id : Option (Value → Value)
  standardize_date : Option (Dataset → String → String → String → Except String Dataset)
  validate_scraped_week : Option (Dataset → String → Except String Unit)
  validate_rating_dependency : Option (Dataset → String → Except String Unit)
  clean_text : Option (Value → Value)
  remove_duplicates : Option (Dataset → Except String Dataset)
  correct_count_overall : Option (Dataset → String → Except String Dataset)
  report_zero_ratings : Option (Dataset → Except String (List (List Value)))

/-- A run with no validation callables defined. -/
def noneBundle : Bundle :=
  { clean_product_id := none, standardize_date := none, validate_scraped_week := none,
    validate_rating_dependency := none, clean_text := none, remove_duplicates := none,
    correct_count_overall := none, report_zero_ratings := none }

/- ## Configured exemption lists (module constants of the script) -/

def skip_zero_check : List String := ["fancode_ratings", "nathabit_ratings"]

def skip_entire_file : List String := ["giva_ratings", "amazon_bestseller"]

/- ## apply_validations -/

/-- Python str(v) of a cell as pandas astype(str) renders it. -/
def valToPyStr : Value → String
  | .str s => s
  | .num n => toString n
  | .null => "nan"

/-- The text columns cleaned by clean_text. -/
def textCols : List String := ["brand", "brand_tag", "f_category", "source", "pan"]

/-- Result of apply_validations: the transformed frame, the issue list, the
duplicate-removal delta (line 95), whether report_zero_ratings was invoked,
and the value of the zero-audit exemption test of line 105. -/
structure VResult where
  df : Dataset
  issues : List String
  removed : Nat
  zeroRan : Bool
  zeroSuppressed : Bool
deriving DecidableEq, Repr

/-- Lines 56-61: clean_product_id over the stringified product_id column. -/
def cleanProductStep (b : Bundle) (df : Dataset) : Dataset :=
  match b.clean_product_id with
  | some f =>
    if "product_id" ∈ df.cols then mapCol df "product_id" (fun v => f (.str (valToPyStr v))) else df
  | none => df

/-- Lines 63-68: standardize_date; on an exception the frame is unchanged and
an issue is recorded. -/
def standardizeStep (b : Bundle) (df : Dataset) (issues : List String) :
    Dataset × List String :=
  match b.standardize_date with
  | some f =>
    if "scraped_date" ∈ df.cols then
      match f df "scraped_date" "scraped_week" "scraped_year" with
      | .ok d => (d, issues)
      | .error e => (df, issues ++ ["standardize_date failed: " ++ e])
    else (df, issues)
  | none => (df, issues)

/-- Lines 56-68 composed: the frame and issues handed to the week check. -/
def dateStage (b : Bundle) (dfn : Dataset) : Dataset × List String :=
  standardizeStep b (cleanProductStep b dfn) []

/-- Lines 70-74: the re-raised fatal week check. -/
def weekGate (b : Bundle) (df : Dataset) (expected_week : String) : Except String Unit :=
  match b.validate_scraped_week with
  | some f => f df expected_week
  | none => .ok ()

/-- Lines 76-80: a raised exception becomes a plain issue string. -/
def depIssues (b : Bundle) (df : Dataset) (file_name : String) : List String :=
  match b.validate_rating_dependency with
  | some f => match f df file_name with | .ok _ => [] | .error e => [e]
  | none => []

/-- Lines 82-89: clean_text over the text columns that are present. -/
def cleanTextStep (b : Bundle) (df : Dataset) : Dataset :=
  match b.clean_text with
  | some f => textCols.foldl (fun d c => if c ∈ d.cols then mapCol d c f else d) df
  | none => df

/-- Lines 91-97: remove_duplicates with the before/after delta. -/
def dedupStep (b : Bundle) (df : Dataset) (issues : List String) :
    Dataset × List String × Nat :=
  match b.remove_duplicates with
  | some f =>
    match f df with
    | .ok d => (d, issues, df.rows.length - d.rows.length)
    | .error e => (df, issues ++ ["remove_duplicates failed: " ++ e], 0)
  | none => (df, issues, 0)

/-- Lines 99-103: correct_count_overall. -/
def correctStep (b : Bundle) (file_name : String) (df : Dataset) (issues : List String) :
    Dataset × List String :=
  match b.correct_count_overall with
  | some f =>
    match f df file_name with
    | .ok d => (d, issues)
    | .error e => (df, issues ++ ["correct_count_overall failed: " ++ e])
  | none => (df, issues)

/-- Lines 105-111: the zero-rating audit, suppressed entirely for files whose
lowered name contains a skip_zero_check entry.  The Bool reports whether the
audit callable was invoked. -/
def zeroAuditStep (b : Bundle) (file_name : String) (df : Dataset) (issues : List String) :
    List String × Bool :=
  if matchesAny skip_zero_check file_name then (issues, false)
  else
    match b.report_zero_ratings with
    | some f =>
      match f df with
      | .ok _ => (issues, true)
      | .error e => (issues ++ ["report_zero_ratings failed: " ++ e], true)
    | none => (issues, false)

/-- The frame, issues and duplicate delta after lines 82-97 (clean_text and
remove_duplicates). -/
def tailStage (b : Bundle) (df2 : Dataset) (is3 : List String) :
    Dataset × List String × Nat :=
  dedupStep b (cleanTextStep b df2) is3

/-- The frame and issues after line 103 (correct_count_overall). -/
def tailStage2 (b : Bundle) (file_name : String) (df2 : Dataset) (is3 : List String) :
    Dataset × List String :=
  correctStep b file_name (tailStage b df2 is3).1 (tailStage b df2 is3).2.1

/-- The issues and audit flag after line 111 (report_zero_ratings). -/
def tailIssues (b : Bundle) (file_name : String) (df2 : Dataset) (is3 : List String) :
    List String × Bool :=
  zeroAuditStep b file_name (tailStage2 b file_name df2 is3).1 (tailStage2 b file_name df2 is3).2

/-- Lines 82-115: the rules that run after the two cross-field checks, then
the annotation of the frame with the newline-joined issue text. -/
def pipelineTail (b : Bundle) (file_name : String) (df2 : Dataset) (is3 : List String) :
    VResult :=
  ⟨(if (tailIssues b file_name df2 is3).1.isEmpty then (tailStage2 b file_name df2 is3).1
    else addCol (tailStage2 b file_name df2 is3).1 "validation_issues"
        (.str (String.intercalate "\n" (tailIssues b file_name df2 is3).1))),
   (tailIssues b file_name df2 is3).1,
   (tailStage b df2 is3).2.2,
   (tailIssues b file_name df2 is3).2,
   matchesAny skip_zero_check file_name⟩

/-- The rule pipeline on an already-normalized frame.  An exception of
validate_scraped_week is re-raised (line 74) and aborts the pipeline; an
exception of validate_rating_dependency is appended to the issues and the
pipeline continues (line 80). -/
def applyRules (b : Bundle) (dfn : Dataset) (file_name : String) (expected_week : String) :
    Except String VResult :=
  let x := dateStage b dfn
  match weekGate b x.1 expected_week with
  | .error e => .error ("validate_scraped_week failed: ❌ " ++ e)
  | .ok _ => .ok (pipelineTail b file_name x.1 (x.2 ++ depIssues b x.1 file_name))

/-- apply_validations (lines 52-115): normalize the column names, then run
the fixed rule pipeline. -/
def apply_validations (b : Bundle) (df : Dataset) (file_name : String)
    (expected_week : String) : Except String VResult :=
  applyRules b (normalizeCols df) file_name expected_week

/- ## process_file: pre-validation corrective passes and file policies -/

/-- Lines 168-173: infer the source from the file name when the source column
is absent or entirely null; the inferred text precedes the "_ratings" marker. -/
def inferStep (file_name : String) (df : Dataset) : Dataset × Option String :=
  if "source" ∉ df.cols || allNullCol df "source" then
    let inferred := (file_name.splitOn "_ratings").headD file_name
    (addCol df "source" (.str inferred), some inferred)
  else (df, none)

def starCols : List String :=
  ["count_5star", "count_4star", "count_3star", "count_2star", "count_1star"]

def sevenCols : List String :=
  ["count_5star", "count_4star", "count_3star", "count_2star", "count_1star",
   "review_count", "count_overall"]

/-- s.fillna(0) == 0 on a cell: nulls count as zero. -/
def isZeroFilled : Value → Bool
  | .null => true
  | .num n => n = 0
  | .str _ => false

/-- s.fillna(0) > 0 on a cell of a numeric column. -/
def valPos : Value → Bool
  | .num n => 0 < n
  | _ => false

/-- Lines 178-184: every star-bucket count of the row is zero or null. -/
def allStarZero (cols : List String) (r : List Value) : Bool :=
  starCols.all (fun c => isZeroFilled (cellAt cols r c))

/-- The auto-fix condition of line 184: zero star buckets, positive reviews. -/
def fixCond (cols : List String) (r : List Value) : Bool :=
  allStarZero cols r && valPos (cellAt cols r "review_count")

/-- Lines 186: overwrite count_overall with review_count on fixed rows. -/
def fixRow (cols : List String) (r : List Value) : List Value :=
  if fixCond cols r then
    setCellAtCol cols r "count_overall" (fun _ => cellAt cols r "review_count")
  else r

/-- Number of rows the corrective pass fixes (line 185). -/
def fixCountOf (df : Dataset) : Nat :=
  (df.rows.filter (fun r => fixCond df.cols r)).length

/-- Lines 176-189: the review-count corrective pass; it runs only when all
seven involved columns are present under their raw names, and the audit map
records the count only when it is positive. -/
def fixStep (df : Dataset) : Dataset × Option Nat :=
  if sevenCols.all (fun c => c ∈ df.cols) then
    let n := fixCountOf df
    ({ cols := df.cols, rows := df.rows.map (fixRow df.cols) },
     if 0 < n then some n else none)
  else (df, none)

/- ## The week pre-check of lines 198-206 -/

/-- Python x.replace(".", "", 1). -/
def removeFirstDot : List Char → List Char
  | [] => []
  | c :: cs => if c = '.' then cs else c :: removeFirstDot cs

/-- Python x.isdigit() (ASCII digits; false on the empty string). -/
def allDigits (l : List Char) : Bool :=
  !l.isEmpty && l.all Char.isDigit

def natOfDigits (l : List Char) : Nat :=
  l.foldl (fun a c => a * 10 + (c.toNat - 48)) 0

/-- Python s.zfill(2). -/
def zfill2 (s : String) : String :=
  if 2 ≤ s.length then s else String.mk (List.replicate (2 - s.length) '0') ++ s

/-- str(int(float(x))) for a digits-with-at-most-one-dot string: the digits
before the dot, as a number. -/
def intPartNat (l : List Char) : Nat :=
  natOfDigits (l.takeWhile (fun c => c ≠ '.'))

/-- Line 200: str(int(float(x))).zfill(2) when x.replace(".", "", 1).isdigit(),
else x unchanged. -/
def normWeekStr (s : String) : String :=
  if allDigits (removeFirstDot s.toList) then zfill2 (toString (intPartNat s.toList))
  else s

/-- Lines 199-200 applied to one cell: astype(str), strip, normalize. -/
def normWeekVal (v : Value) : Value :=
  .str (normWeekStr (stripStr (valToPyStr v)))

/-- Lines 198-206: when a scraped_week column exists it is normalized in
place, and the file is skipped when the expected week is absent from it. -/
def weekStep (normalized_week : String) (df : Dataset) : Dataset × Bool :=
  if "scraped_week" ∈ df.cols then
    let df' := mapCol df "scraped_week" normWeekVal
    (df', (Value.str normalized_week) ∉ colVals df' "scraped_week")
  else (df, false)

/- ## The per-file outcome record -/

inductive Status
  | passed
  | failed (reasons : List String)
  | skipped
deriving DecidableEq, Repr

/-- Observable effects and bookkeeping of one process_file call: outcome
status, object-store writes (key, frame), relational-store upsert calls
(table, unique keys, frame), audit entries, and the row counts of the
completeness partition. -/
structure PResult where
  status : Status
  uploads : List (String × Dataset)
  upserts : List (String × List String × Dataset)
  inferredSource : Option String
  reviewFixes : Option Nat
  nInput : Nat
  nComplete : Nat
  nIncomplete : Nat
  nRemoved : Nat
  splitBypassed : Bool
  zeroAuditRan : Bool
  zeroAuditSuppressed : Bool
deriving DecidableEq, Repr

def unique_keys : List String := ["source", "product_id", "scraped_week", "scraped_year"]

/-- The frame after the two pre-validation corrective passes. -/
def preDf (file_name : String) (df₀ : Dataset) : Dataset :=
  (fixStep (inferStep file_name df₀).1).1

/-- The frame handed to apply_validations (week column normalized). -/
def wkDf (normalized_week file_name : String) (df₀ : Dataset) : Dataset :=
  (weekStep normalized_week (preDf file_name df₀)).1

/-- The week-mismatch condition of line 203. -/
def wkMismatch (normalized_week file_name : String) (df₀ : Dataset) : Bool :=
  (weekStep normalized_week (preDf file_name df₀)).2

/-- process_file (lines 163-240).  File reading is abstracted: the call takes
the parsed frame and the base name of the file.  Exceptions escaping to the
outer handler of line 238 become a failed outcome; the two KeyError sites of
the partition (the star-column mask of line 224 and the key-column selection
of line 232) are modelled explicitly. -/
def process_file (b : Bundle) (file_name : String) (df₀ : Dataset)
    (normalized_week : String) (week_folder : String) : PResult :=
  let inf := (inferStep file_name df₀).2
  let fx := (fixStep (inferStep file_name df₀).1).2
  let base : PResult :=
    { status := .skipped, uploads := [], upserts := [], inferredSource := inf,
      reviewFixes := fx, nInput := df₀.rows.length, nComplete := 0, nIncomplete := 0,
      nRemoved := 0, splitBypassed := false, zeroAuditRan := false,
      zeroAuditSuppressed := false }
  if matchesAny skip_entire_file file_name then base
  else if wkMismatch normalized_week file_name df₀ then base
  else
    match apply_validations b (wkDf normalized_week file_name df₀) file_name normalized_week with
    | .error e => { base with status := .failed [e] }
    | .ok vr =>
      if !vr.issues.isEmpty then
        { base with status := .failed vr.issues,
                    uploads := [(week_folder ++ ("FAILED_" ++ file_name), vr.df)],
                    nRemoved := vr.removed, zeroAuditRan := vr.zeroRan,
                    zeroAuditSuppressed := vr.zeroSuppressed }
      else
        let up0 := [(week_folder ++ file_name, vr.df)]
        if matchesAny skip_zero_check file_name then
          { base with status := .passed, uploads := up0,
                      upserts := [("ratings_stage", unique_keys, vr.df)],
                      nComplete := vr.df.rows.length, nIncomplete := 0,
                      nRemoved := vr.removed, splitBypassed := true,
                      zeroAuditRan := vr.zeroRan, zeroAuditSuppressed := vr.zeroSuppressed }
        else if starCols.all (fun c => c ∈ vr.df.cols) then
          let dfM : Dataset := ⟨vr.df.cols, vr.df.rows.filter (fun r => allStarZero vr.df.cols r)⟩
          let dfV : Dataset := ⟨vr.df.cols, vr.df.rows.filter (fun r => !allStarZero vr.df.cols r)⟩
          let ups1 := if dfV.rows.isEmpty then [] else [("ratings_stage", unique_keys, dfV)]
          if dfM.rows.isEmpty then
            { base with status := .passed, uploads := up0, upserts := ups1,
                        nComplete := dfV.rows.length, nIncomplete := 0,
                        nRemoved := vr.removed, zeroAuditRan := vr.zeroRan,
                        zeroAuditSuppressed := vr.zeroSuppressed }
          else if unique_keys.all (fun c => c ∈ dfM.cols) then
            { base with status := .passed, uploads := up0,
                        upserts := ups1 ++ [("ratings_missing", unique_keys, selectColsD dfM unique_keys)],
                        nComplete := dfV.rows.length, nIncomplete := dfM.rows.length,
                        nRemoved := vr.removed, zeroAuditRan := vr.zeroRan,
                        zeroAuditSuppressed := vr.zeroSuppressed }
          else
            { base with status := .failed ["KeyError: missing unique key column"],
                        uploads := up0, upserts := ups1, nRemoved := vr.removed,
                        zeroAuditRan := vr.zeroRan, zeroAuditSuppressed := vr.zeroSuppressed }
        else
          { base with status := .failed ["KeyError: missing star count column"],
                      uploads := up0, nRemoved := vr.removed,
                      zeroAuditRan := vr.zeroRan, zeroAuditSuppressed := vr.zeroSuppressed }

/- ## upsert_data (lines 127-148)

The target table is modelled as a list of rows aligned with the staged
frame's column list (the scratch table mirrors the target schema).  Each
chunk is staged and then merged by one INSERT ... SELECT statement; MySQL
processes the staged rows in order, so a chunk is a left fold of a per-row
merge.  With non-key columns an ON DUPLICATE KEY UPDATE assigns every
non-key column from VALUES(...), i.e. from the staged row (last writer
wins); without non-key columns an INSERT IGNORE leaves a conflicting target
row untouched. -/

/-- The value tuple of the unique key columns of a row. -/
def projKey (cols uk : List String) (r : List Value) : List Value :=
  uk.map (cellAt cols r)

/-- Merge one staged row into one matching target row: non-key columns are
overwritten with the staged value, key columns keep the target value. -/
def mergeRow (uk : List String) : List String → List Value → List Value → List Value
  | [], _, _ => []
  | c :: cs, ss, ts =>
    (if c ∈ uk then ts.headD .null else ss.headD .null) :: mergeRow uk cs ss.tail ts.tail

/-- One staged row under ON DUPLICATE KEY UPDATE: update every target row
with the same unique-key tuple, or insert the row when no key matches. -/
def upsertRow (cols uk : List String) (t : List (List Value)) (s : List Value) :
    List (List Value) :=
  if t.any (fun tr => projKey cols uk tr = projKey cols uk s) then
    t.map (fun tr => if projKey cols uk tr = projKey cols uk s then mergeRow uk cols s tr else tr)
  else t ++ [padRow cols s]

/-- One staged row under INSERT IGNORE: drop it on a key conflict. -/
def ignoreRow (cols uk : List String) (t : List (List Value)) (s : List Value) :
    List (List Value) :=
  if t.any (fun tr => projKey cols uk tr = projKey cols uk s) then t
  else t ++ [padRow cols s]

/-- range(0, len(df), chunk_size) slicing of line 130-131. -/
def chunkGo (n : Nat) : Nat → List (List Value) → List (List (List Value))
  | _, [] => []
  | 0, l => [l]
  | fuel + 1, x :: xs => ((x :: xs).take n) :: chunkGo n fuel ((x :: xs).drop n)

def chunksOf (n : Nat) (l : List (List Value)) : List (List (List Value)) :=
  chunkGo n l.length l

/-- upsert_data: per chunk, stage then merge each row in order.  The merge
statement is chosen once from the staged frame's non-key columns. -/
def upsert_data (df : Dataset) (uk : List String) (chunkSize : Nat)
    (t : List (List Value)) : List (List Value) :=
  let update_cols := df.cols.filter (fun c => c ∉ uk)
  if update_cols.isEmpty then
    (chunksOf chunkSize df.rows).foldl (fun acc ch => ch.foldl (ignoreRow df.cols uk) acc) t
  else
    (chunksOf chunkSize df.rows).foldl (fun acc ch => ch.foldl (upsertRow df.cols uk) acc) t

/-- The key tuples of the rows of a table. -/
def keysOf (cols uk : List String) (t : List (List Value)) : List (List Value) :=
  t.map (projKey cols uk)

/-- The table's uniqueness constraint: no two rows share a key tuple. -/
def KeyUnique (cols uk : List String) (t : List (List Value)) : Prop :=
  (keysOf cols uk t).Nodup

instance (cols uk : List String) (t : List (List Value)) : Decidable (KeyUnique cols uk t) := by
  unfold KeyUnique
  infer_instance

/-- The last staged row carrying the key k, if any. -/
def lastMatch (cols uk : List String) : List (List Value) → List Value → Option (List Value)
  | [], _ => none
  | s :: rs, k =>
    match lastMatch cols uk rs k with
    | some r => some r
    | none => if projKey cols uk s = k then some s else none

/-- The final state of a pre-existing target row after a staged sequence:
merged with the last staged row of its key, untouched otherwise. -/
def applyLast (cols uk : List String) (rs : List (List Value)) (tr : List Value) :
    List Value :=
  match lastMatch cols uk rs (projKey cols uk tr) with
  | some s => mergeRow uk cols s tr
  | none => tr

/-- The rows appended for keys absent from the table: each new key enters at
its first staged occurrence and is then updated by later occurrences. -/
def newPart (cols uk : List String) : List (List Value) → List (List Value) → List (List Value)
  | [], _ => []
  | s :: rs, ks =>
    if projKey cols uk s ∈ ks then newPart cols uk rs ks
    else applyLast cols uk rs (padRow cols s) :: newPart cols uk rs (ks ++ [projKey cols uk s])

/-- The rows appended by INSERT IGNORE: the first staged occurrence of each
key absent from the table, verbatim. -/
def igNew (cols uk : List String) : List (List Value) → List (List Value) → List (List Value)
  | [], _ => []
  | s :: rs, ks =>
    if projKey cols uk s ∈ ks then igNew cols uk rs ks
    else padRow cols s :: igNew cols uk rs (ks ++ [projKey cols uk s])

/- ## Fixtures used by the witnesses and counterexamples -/

/-- A file whose scraped_week column holds only week 07. -/
def dfC3 : Dataset := ⟨["source", "scraped_week"], [[.str "brandx", .str "07"]]⟩

/-- A frame with a raw upper-case star-count header. -/
def dfU : Dataset :=
  ⟨["COUNT_5STAR", "count_4star", "count_3star", "count_2star", "count_1star",
    "review_count", "count_overall"],
   [[.num 0, .num 0, .num 0, .num 0, .num 0, .num 37, .num 0]]⟩

/-- A rating-dependency rule that always raises. -/
def depFailRule : Dataset → String → Except String Unit :=
  fun _ _ => .error "rating totals mismatch"

/-- A working duplicate-removal rule. -/
def dedupRule : Dataset → Except String Dataset :=
  fun d => .ok ⟨d.cols, d.rows.dedup⟩

/-- A bundle whose rating-dependency check raises and whose duplicate removal
works; the other rules are absent. -/
def depFailBundle : Bundle :=
  { noneBundle with
    validate_rating_dependency := some depFailRule,
    remove_duplicates := some dedupRule }

/-- A frame with one duplicated row. -/
def dfC2 : Dataset := ⟨["brand"], [[.num 1], [.num 1]]⟩

/-- A bundle whose duplicate removal raises, producing a non-fatal issue. -/
def dedupFailBundle : Bundle :=
  { noneBundle with remove_duplicates := some (fun _ => .error "boom") }

/-- A well-formed snapshot with one complete and one incomplete row. -/
def dfW : Dataset :=
  ⟨["source", "product_id", "scraped_week", "scraped_year",
    "count_5star", "count_4star", "count_3star", "count_2star", "count_1star",
    "review_count", "count_overall"],
   [[.str "acme", .str "p1", .str "05", .str "2024",
     .num 1, .num 0, .num 0, .num 0, .num 0, .num 3, .num 4],
    [.str "acme", .str "p2", .str "05", .str "2024",
     .num 0, .num 0, .num 0, .num 0, .num 0, .num 0, .num 0]]⟩

/-- A frame with a row whose star buckets are all zero and review count 37. -/
def dfFix : Dataset :=
  ⟨["source", "count_5star", "count_4star", "count_3star", "count_2star", "count_1star",
    "review_count", "count_overall"],
   [[.str "acme", .num 0, .num 0, .num 0, .num 0, .num 0, .num 37, .num 0]]⟩

/-- The concrete annotated validation outcome of the C4 witness run. -/
def vrC4 : VResult :=
  ⟨⟨["source", "product_id", "scraped_week", "scraped_year", "count_5star", "count_4star",
     "count_3star", "count_2star", "count_1star", "review_count", "count_overall",
     "validation_issues"],
    [[.str "acme", .str "p1", .str "05", .str "2024", .num 1, .num 0, .num 0, .num 0,
      .num 0, .num 3, .num 4, .str "remove_duplicates failed: boom"],
     [.str "acme", .str "p2", .str "05", .str "2024", .num 0, .num 0, .num 0, .num 0,
      .num 0, .num 0, .num 0, .str "remove_duplicates failed: boom"]]⟩,
   ["remove_duplicates failed: boom"], 0, false, false⟩

/-- A staged frame with one key matching the table and one new key. -/
def dfUp : Dataset :=
  ⟨["source", "product_id", "rating"],
   [[.str "a", .str "p1", .num 4], [.str "a", .str "p2", .num 5]]⟩

/-- A pure-key staged frame (columns are exactly the unique keys). -/
def dfUpKeys : Dataset :=
  ⟨["source", "product_id"], [[.str "a", .str "p1"], [.str "a", .str "p2"]]⟩

/-- A target table with two rows of distinct keys. -/
def t0 : List (List Value) :=
  [[.str "a", .str "p1", .num 1], [.str "b", .str "q", .num 2]]

/-- A pure-key target table. -/
def t0K : List (List Value) := [[.str "a", .str "p1"], [.str "b", .str "q"]]

/- ## Lemmas about the merge primitives -/

lemma cellAt_mergeRow (uk : List String) (cols : List String) :
    ∀ (s t : List Value) (c : String),
      cellAt cols (mergeRow uk cols s t) c
        = if c ∈ uk then cellAt cols t c else cellAt cols s c := by
  induction cols with
  | nil => intro s t c; simp [cellAt, mergeRow]
  | cons c' cs ih =>
    intro s t c
    by_cases hc : c' = c
    · subst hc
      simp only [mergeRow, cellAt, if_pos rfl, List.headD_cons]
      by_cases hm : c' ∈ uk
      · simp only [if_pos hm]; simp
      · simp only [if_neg hm]; simp
    · simp only [mergeRow, cellAt, if_neg hc, List.tail_cons]
      exact ih s.tail t.tail c

lemma cellAt_padRow (cols : List String) :
    ∀ (s : List Value) (c : String), cellAt cols (padRow cols s) c = cellAt cols s c := by
  induction cols with
  | nil => intro s c; rfl
  | cons c' cs ih =>
    intro s c
    by_cases hc : c' = c
    · subst hc; simp [padRow, cellAt]
    · simp only [padRow, cellAt, if_neg hc, List.tail_cons]
      exact ih s.tail c

lemma projKey_mergeRow (cols uk : List String) (s t : List Value) :
    projKey cols uk (mergeRow uk cols s t) = projKey cols uk t := by
  unfold projKey
  refine List.map_congr_left ?_
  intro c hc
  rw [cellAt_mergeRow, if_pos hc]

lemma projKey_padRow (cols uk : List String) (s : List Value) :
    projKey cols uk (padRow cols s) = projKey cols uk s := by
  unfold projKey
  refine List.map_congr_left ?_
  intro c _
  rw [cellAt_padRow]

lemma mergeRow_mergeRow (uk : List String) (cols : List String) :
    ∀ (s s' t : List Value),
      mergeRow uk cols s (mergeRow uk cols s' t) = mergeRow uk cols s t := by
  induction cols with
  | nil => intro s s' t; rfl
  | cons c cs ih =>
    intro s s' t
    simp only [mergeRow, List.headD_cons, List.tail_cons]
    rw [ih]
    by_cases hm : c ∈ uk
    · simp only [if_pos hm]
    · simp only [if_neg hm]

lemma mergeRow_padRow (uk : List String) (cols : List String) :
    ∀ (s : List Value), mergeRow uk cols s (padRow cols s) = padRow cols s := by
  induction cols with
  | nil => intro s; rfl
  | cons c cs ih =>
    intro s
    simp only [mergeRow, padRow, List.headD_cons, List.tail_cons]
    rw [ih]
    by_cases hm : c ∈ uk
    · rw [if_pos hm]
    · rw [if_neg hm]

lemma projKey_applyLast (cols uk : List String) (rs : List (List Value)) (tr : List Value) :
    projKey cols uk (applyLast cols uk rs tr) = projKey cols uk tr := by
  unfold applyLast
  cases hl : lastMatch cols uk rs (projKey cols uk tr) with
  | none => rfl
  | some r => simp only [projKey_mergeRow]

lemma applyLast_cons (cols uk : List String) (s : List Value) (rs : List (List Value))
    (tr : List Value) :
    applyLast cols uk rs
        (if projKey cols uk tr = projKey cols uk s then mergeRow uk cols s tr else tr)
      = applyLast cols uk (s :: rs) tr := by
  by_cases h : projKey cols uk tr = projKey cols uk s
  · rw [if_pos h]
    unfold applyLast
    rw [projKey_mergeRow]
    simp only [lastMatch]
    cases hl : lastMatch cols uk rs (projKey cols uk tr) with
    | none => simp only [if_pos h.symm, mergeRow_mergeRow]
    | some r => simp only [mergeRow_mergeRow]
  · rw [if_neg h]
    unfold applyLast
    simp only [lastMatch]
    cases hl : lastMatch cols uk rs (projKey cols uk tr) with
    | none =>
      have hne : ¬ (projKey cols uk s = projKey cols uk tr) := fun hh => h hh.symm
      simp only [if_neg hne]
    | some r => simp only []

lemma keysOf_append (cols uk : List String) (t u : List (List Value)) :
    keysOf cols uk (t ++ u) = keysOf cols uk t ++ keysOf cols uk u := by
  simp [keysOf]

lemma mem_keysOf_of_eq (cols uk : List String) {t : List (List Value)} {tr s : List Value}
    (htr : tr ∈ t) (h : projKey cols uk tr = projKey cols uk s) :
    projKey cols uk s ∈ keysOf cols uk t := by
  unfold keysOf
  exact h ▸ List.mem_map_of_mem _ htr

lemma upsertFold_char (cols uk : List String) :
    ∀ (rs t : List (List Value)),
      rs.foldl (upsertRow cols uk) t
        = t.map (applyLast cols uk rs) ++ newPart cols uk rs (keysOf cols uk t) := by
  intro rs
  induction rs with
  | nil =>
    intro t
    have hid : ∀ tr ∈ t, applyLast cols uk [] tr = tr := by
      intro tr _
      unfold applyLast
      simp [lastMatch]
    simp only [List.foldl_nil, newPart, List.append_nil]
    rw [List.map_congr_left hid, List.map_id']
  | cons s rs ih =>
    intro t
    simp only [List.foldl_cons]
    by_cases hany : ∃ tr ∈ t, projKey cols uk tr = projKey cols uk s
    · have hb : (t.any fun tr => decide (projKey cols uk tr = projKey cols uk s)) = true := by
        simp only [List.any_eq_true, decide_eq_true_eq]
        exact hany
      have hmem : projKey cols uk s ∈ keysOf cols uk t := by
        obtain ⟨tr, htr, h⟩ := hany
        exact mem_keysOf_of_eq cols uk htr h
      rw [show upsertRow cols uk t s
            = t.map (fun tr => if projKey cols uk tr = projKey cols uk s
                               then mergeRow uk cols s tr else tr) by
            unfold upsertRow; rw [if_pos hb]]
      rw [ih]
      have hkeys : keysOf cols uk
          (t.map (fun tr => if projKey cols uk tr = projKey cols uk s
                            then mergeRow uk cols s tr else tr)) = keysOf cols uk t := by
        unfold keysOf
        rw [List.map_map]
        refine List.map_congr_left ?_
        intro tr _
        simp only [Function.comp]
        by_cases h : projKey cols uk tr = projKey cols uk s
        · rw [if_pos h, projKey_mergeRow]
        · rw [if_neg h]
      rw [hkeys, List.map_map]
      have hmap : ∀ tr ∈ t,
          (applyLast cols uk rs ∘ fun tr =>
            if projKey cols uk tr = projKey cols uk s then mergeRow uk cols s tr else tr) tr
          = applyLast cols uk (s :: rs) tr := by
        intro tr _
        simp only [Function.comp]
        exact applyLast_cons cols uk s rs tr
      rw [List.map_congr_left hmap]
      have hnp : newPart cols uk (s :: rs) (keysOf cols uk t)
          = newPart cols uk rs (keysOf cols uk t) := by
        simp only [newPart, if_pos hmem]
      rw [hnp]
    · have hb : (t.any fun tr => decide (projKey cols uk tr = projKey cols uk s)) = false := by
        simp only [List.any_eq_false, decide_eq_true_eq]
        intro tr htr h
        exact hany ⟨tr, htr, h⟩
      have hnotmem : projKey cols uk s ∉ keysOf cols uk t := by
        unfold keysOf
        intro hmem
        obtain ⟨tr, htr, h⟩ := List.mem_map.mp hmem
        exact hany ⟨tr, htr, h⟩
      rw [show upsertRow cols uk t s = t ++ [padRow cols s] by
            unfold upsertRow; rw [if_neg (by simp [hb])]]
      rw [ih, keysOf_append]
      have hk1 : keysOf cols uk [padRow cols s] = [projKey cols uk s] := by
        simp [keysOf, projKey_padRow]
      rw [hk1, List.map_append]
      have hmap : ∀ tr ∈ t, applyLast cols uk rs tr = applyLast cols uk (s :: rs) tr := by
        intro tr htr
        have h : ¬ projKey cols uk tr = projKey cols uk s := fun h => hany ⟨tr, htr, h⟩
        rw [← applyLast_cons cols uk s rs tr, if_neg h]
      rw [List.map_congr_left hmap]
      have hnp : newPart cols uk (s :: rs) (keysOf cols uk t)
          = applyLast cols uk rs (padRow cols s)
              :: newPart cols uk rs (keysOf cols uk t ++ [projKey cols uk s]) := by
        simp only [newPart, if_neg hnotmem]
      rw [hnp]
      simp [List.append_assoc]

lemma applyLast_applyLast (cols uk : List String) (rs : List (List Value)) (tr : List Value) :
    applyLast cols uk rs (applyLast cols uk rs tr) = applyLast cols uk rs tr := by
  cases hl : lastMatch cols uk rs (projKey cols uk tr) with
  | none =>
    have h1 : applyLast cols uk rs tr = tr := by unfold applyLast; rw [hl]
    rw [h1]
    exact h1
  | some r =>
    have h1 : applyLast cols uk rs tr = mergeRow uk cols r tr := by unfold applyLast; rw [hl]
    rw [h1]
    unfold applyLast
    rw [projKey_mergeRow, hl]
    exact mergeRow_mergeRow uk cols r r tr

lemma newPart_key_not_mem (cols uk : List String) :
    ∀ (rs : List (List Value)) (ks : List (List Value)) (np : List Value),
      np ∈ newPart cols uk rs ks → projKey cols uk np ∉ ks := by
  intro rs
  induction rs with
  | nil => intro ks np h; simp [newPart] at h
  | cons s rs ih =>
    intro ks np h
    by_cases hk : projKey cols uk s ∈ ks
    · simp only [newPart, if_pos hk] at h
      exact ih ks np h
    · simp only [newPart, if_neg hk] at h
      rcases List.mem_cons.mp h with h1 | h2
      · intro hmem
        rw [h1, projKey_applyLast, projKey_padRow] at hmem
        exact hk hmem
      · intro hmem
        exact ih (ks ++ [projKey cols uk s]) np h2 (List.mem_append_left _ hmem)

lemma newPart_fixed (cols uk : List String) :
    ∀ (rs : List (List Value)) (ks : List (List Value)) (np : List Value),
      np ∈ newPart cols uk rs ks → applyLast cols uk rs np = np := by
  intro rs
  induction rs with
  | nil => intro ks np h; simp [newPart] at h
  | cons s rs ih =>
    intro ks np h
    by_cases hk : projKey cols uk s ∈ ks
    · simp only [newPart, if_pos hk] at h
      have hne : projKey cols uk np ≠ projKey cols uk s := by
        intro he
        exact (newPart_key_not_mem cols uk rs ks np h) (he ▸ hk)
      rw [← applyLast_cons cols uk s rs np, if_neg hne]
      exact ih ks np h
    · simp only [newPart, if_neg hk] at h
      rcases List.mem_cons.mp h with h1 | h2
      · subst h1
        cases hl : lastMatch cols uk rs (projKey cols uk s) with
        | some r =>
          have h1' : applyLast cols uk rs (padRow cols s) = mergeRow uk cols r (padRow cols s) := by
            unfold applyLast; rw [projKey_padRow, hl]
          have h2' : lastMatch cols uk (s :: rs) (projKey cols uk s) = some r := by
            simp only [lastMatch, hl]
          rw [h1']
          unfold applyLast
          rw [projKey_mergeRow, projKey_padRow, h2']
          exact mergeRow_mergeRow uk cols r r (padRow cols s)
        | none =>
          have h1' : applyLast cols uk rs (padRow cols s) = padRow cols s := by
            unfold applyLast; rw [projKey_padRow, hl]
          have h2' : lastMatch cols uk (s :: rs) (projKey cols uk s) = some s := by
            simp [lastMatch, hl]
          rw [h1']
          unfold applyLast
          rw [projKey_padRow, h2']
          exact mergeRow_padRow uk cols s
      · have h1 := ih (ks ++ [projKey cols uk s]) np h2
        have hnot := newPart_key_not_mem cols uk rs (ks ++ [projKey cols uk s]) np h2
        have hne : projKey cols uk np ≠ projKey cols uk s := by
          intro he
          refine hnot (List.mem_append_right _ ?_)
          rw [he]
          exact List.mem_singleton.mpr rfl
        rw [← applyLast_cons cols uk s rs np, if_neg hne]
        exact h1

lemma newPart_covers (cols uk : List String) :
    ∀ (rs : List (List Value)) (ks : List (List Value)) (s : List Value),
      s ∈ rs → projKey cols uk s ∉ ks →
      ∃ np ∈ newPart cols uk rs ks, projKey cols uk np = projKey cols uk s := by
  intro rs
  induction rs with
  | nil => intro ks s hs _; simp at hs
  | cons s₀ rs ih =>
    intro ks s hs hks
    by_cases hk0 : projKey cols uk s₀ ∈ ks
    · rcases List.mem_cons.mp hs with rfl | hs'
      · exact absurd hk0 hks
      · simp only [newPart, if_pos hk0]
        exact ih ks s hs' hks
    · simp only [newPart, if_neg hk0]
      by_cases heq : projKey cols uk s = projKey cols uk s₀
      · refine ⟨applyLast cols uk rs (padRow cols s₀), List.mem_cons_self _ _, ?_⟩
        rw [projKey_applyLast, projKey_padRow, heq]
      · rcases List.mem_cons.mp hs with rfl | hs'
        · exact absurd rfl heq
        · have hks' : projKey cols uk s ∉ ks ++ [projKey cols uk s₀] := by
            intro h
            rcases List.mem_append.mp h with h1 | h2
            · exact hks h1
            · exact heq (List.mem_singleton.mp h2)
          obtain ⟨np, hnp, he⟩ := ih (ks ++ [projKey cols uk s₀]) s hs' hks'
          exact ⟨np, List.mem_cons_of_mem _ hnp, he⟩

lemma newPart_nil_of_covered (cols uk : List String) :
    ∀ (rs : List (List Value)) (ks : List (List Value)),
      (∀ s ∈ rs, projKey cols uk s ∈ ks) → newPart cols uk rs ks = [] := by
  intro rs
  induction rs with
  | nil => intro ks _; rfl
  | cons s rs ih =>
    intro ks h
    have hk : projKey cols uk s ∈ ks := h s (List.mem_cons_self _ _)
    simp only [newPart, if_pos hk]
    exact ih ks (fun s' hs' => h s' (List.mem_cons_of_mem _ hs'))

lemma keysOf_map_applyLast (cols uk : List String) (rs : List (List Value))
    (t : List (List Value)) :
    keysOf cols uk (t.map (applyLast cols uk rs)) = keysOf cols uk t := by
  unfold keysOf
  rw [List.map_map]
  refine List.map_congr_left ?_
  intro tr _
  simp only [Function.comp]
  exact projKey_applyLast cols uk rs tr

/-- Replaying the same staged sequence against the table it produced is the
identity: the stage-then-merge fold with ON DUPLICATE KEY UPDATE is
idempotent. -/
lemma upsertFold_replay (cols uk : List String) (rs t : List (List Value)) :
    rs.foldl (upsertRow cols uk) (rs.foldl (upsertRow cols uk) t)
      = rs.foldl (upsertRow cols uk) t := by
  rw [upsertFold_char cols uk rs t]
  rw [upsertFold_char cols uk rs
       (t.map (applyLast cols uk rs) ++ newPart cols uk rs (keysOf cols uk t))]
  have hmap : (t.map (applyLast cols uk rs) ++ newPart cols uk rs (keysOf cols uk t)).map
        (applyLast cols uk rs)
      = t.map (applyLast cols uk rs) ++ newPart cols uk rs (keysOf cols uk t) := by
    rw [List.map_append, List.map_map]
    congr 1
    · refine List.map_congr_left ?_ |>.trans rfl
      intro tr _
      simp only [Function.comp]
      exact applyLast_applyLast cols uk rs tr
    · refine List.map_congr_left ?_ |>.trans (List.map_id _)
      intro np hnp
      exact newPart_fixed cols uk rs (keysOf cols uk t) np hnp
  rw [hmap]
  have hcov : ∀ s ∈ rs, projKey cols uk s ∈ keysOf cols uk
      (t.map (applyLast cols uk rs) ++ newPart cols uk rs (keysOf cols uk t)) := by
    intro s hs
    rw [keysOf_append, keysOf_map_applyLast]
    by_cases hk : projKey cols uk s ∈ keysOf cols uk t
    · exact List.mem_append_left _ hk
    · obtain ⟨np, hnp, he⟩ := newPart_covers cols uk rs (keysOf cols uk t) s hs hk
      refine List.mem_append_right _ ?_
      unfold keysOf
      exact he ▸ List.mem_map_of_mem _ hnp
  rw [newPart_nil_of_covered cols uk rs _ hcov, List.append_nil]

lemma igFold_char (cols uk : List String) :
    ∀ (rs t : List (List Value)),
      rs.foldl (ignoreRow cols uk) t = t ++ igNew cols uk rs (keysOf cols uk t) := by
  intro rs
  induction rs with
  | nil => intro t; simp [igNew]
  | cons s rs ih =>
    intro t
    simp only [List.foldl_cons]
    by_cases hany : ∃ tr ∈ t, projKey cols uk tr = projKey cols uk s
    · have hb : (t.any fun tr => decide (projKey cols uk tr = projKey cols uk s)) = true := by
        simp only [List.any_eq_true, decide_eq_true_eq]
        exact hany
      have hmem : projKey cols uk s ∈ keysOf cols uk t := by
        obtain ⟨tr, htr, h⟩ := hany
        exact mem_keysOf_of_eq cols uk htr h
      rw [show ignoreRow cols uk t s = t by unfold ignoreRow; rw [if_pos hb]]
      rw [ih]
      simp only [igNew, if_pos hmem]
    · have hb : (t.any fun tr => decide (projKey cols uk tr = projKey cols uk s)) = false := by
        simp only [List.any_eq_false, decide_eq_true_eq]
        intro tr htr h
        exact hany ⟨tr, htr, h⟩
      have hnotmem : projKey cols uk s ∉ keysOf cols uk t := by
        unfold keysOf
        intro hmem
        obtain ⟨tr, htr, h⟩ := List.mem_map.mp hmem
        exact hany ⟨tr, htr, h⟩
      rw [show ignoreRow cols uk t s = t ++ [padRow cols s] by
            unfold ignoreRow; rw [if_neg (by simp [hb])]]
      rw [ih, keysOf_append]
      have hk1 : keysOf cols uk [padRow cols s] = [projKey cols uk s] := by
        simp [keysOf, projKey_padRow]
      rw [hk1]
      simp only [igNew, if_neg hnotmem]
      simp [List.append_assoc]

lemma igNew_key_not_mem (cols uk : List String) :
    ∀ (rs ks : List (List Value)) (np : List Value),
      np ∈ igNew cols uk rs ks → projKey cols uk np ∉ ks := by
  intro rs
  induction rs with
  | nil => intro ks np h; simp [igNew] at h
  | cons s rs ih =>
    intro ks np h
    by_cases hk : projKey cols uk s ∈ ks
    · simp only [igNew, if_pos hk] at h
      exact ih ks np h
    · simp only [igNew, if_neg hk] at h
      rcases List.mem_cons.mp h with h1 | h2
      · intro hmem
        rw [h1, projKey_padRow] at hmem
        exact hk hmem
      · intro hmem
        exact ih (ks ++ [projKey cols uk s]) np h2 (List.mem_append_left _ hmem)

lemma igNew_covers (cols uk : List String) :
    ∀ (rs ks : List (List Value)) (s : List Value),
      s ∈ rs → projKey cols uk s ∉ ks →
      ∃ np ∈ igNew cols uk rs ks, projKey cols uk np = projKey cols uk s := by
  intro rs
  induction rs with
  | nil => intro ks s hs _; simp at hs
  | cons s₀ rs ih =>
    intro ks s hs hks
    by_cases hk0 : projKey cols uk s₀ ∈ ks
    · rcases List.mem_cons.mp hs with rfl | hs'
      · exact absurd hk0 hks
      · simp only [igNew, if_pos hk0]
        exact ih ks s hs' hks
    · simp only [igNew, if_neg hk0]
      by_cases heq : projKey cols uk s = projKey cols uk s₀
      · refine ⟨padRow cols s₀, List.mem_cons_self _ _, ?_⟩
        rw [projKey_padRow, heq]
      · rcases List.mem_cons.mp hs with rfl | hs'
        · exact absurd rfl heq
        · have hks' : projKey cols uk s ∉ ks ++ [projKey cols uk s₀] := by
            intro h
            rcases List.mem_append.mp h with h1 | h2
            · exact hks h1
            · exact heq (List.mem_singleton.mp h2)
          obtain ⟨np, hnp, he⟩ := ih (ks ++ [projKey cols uk s₀]) s hs' hks'
          exact ⟨np, List.mem_cons_of_mem _ hnp, he⟩

lemma igNew_nil_of_covered (cols uk : List String) :
    ∀ (rs ks : List (List Value)),
      (∀ s ∈ rs, projKey cols uk s ∈ ks) → igNew cols uk rs ks = [] := by
  intro rs
  induction rs with
  | nil => intro ks _; rfl
  | cons s rs ih =>
    intro ks h
    have hk : projKey cols uk s ∈ ks := h s (List.mem_cons_self _ _)
    simp only [igNew, if_pos hk]
    exact ih ks (fun s' hs' => h s' (List.mem_cons_of_mem _ hs'))

/-- Replaying the same staged sequence under INSERT IGNORE is the identity. -/
lemma igFold_replay (cols uk : List String) (rs t : List (List Value)) :
    rs.foldl (ignoreRow cols uk) (rs.foldl (ignoreRow cols uk) t)
      = rs.foldl (ignoreRow cols uk) t := by
  rw [igFold_char cols uk rs t]
  rw [igFold_char cols uk rs (t ++ igNew cols uk rs (keysOf cols uk t))]
  have hcov : ∀ s ∈ rs, projKey cols uk s ∈ keysOf cols uk
      (t ++ igNew cols uk rs (keysOf cols uk t)) := by
    intro s hs
    rw [keysOf_append]
    by_cases hk : projKey cols uk s ∈ keysOf cols uk t
    · exact List.mem_append_left _ hk
    · obtain ⟨np, hnp, he⟩ := igNew_covers cols uk rs (keysOf cols uk t) s hs hk
      refine List.mem_append_right _ ?_
      unfold keysOf
      exact he ▸ List.mem_map_of_mem _ hnp
  rw [igNew_nil_of_covered cols uk rs _ hcov, List.append_nil]

/- ## Preservation of the uniqueness constraint -/

lemma upsertRow_keys_or (cols uk : List String) (t : List (List Value)) (s : List Value) :
    keysOf cols uk (upsertRow cols uk t s) = keysOf cols uk t
      ∨ (keysOf cols uk (upsertRow cols uk t s) = keysOf cols uk t ++ [projKey cols uk s]
          ∧ projKey cols uk s ∉ keysOf cols uk t) := by
  unfold upsertRow
  by_cases hany : ∃ tr ∈ t, projKey cols uk tr = projKey cols uk s
  · left
    have hb : (t.any fun tr => decide (projKey cols uk tr = projKey cols uk s)) = true := by
      simp only [List.any_eq_true, decide_eq_true_eq]; exact hany
    rw [if_pos hb]
    unfold keysOf
    rw [List.map_map]
    refine List.map_congr_left ?_
    intro tr _
    simp only [Function.comp]
    by_cases h : projKey cols uk tr = projKey cols uk s
    · rw [if_pos h, projKey_mergeRow]
    · rw [if_neg h]
  · right
    have hb : (t.any fun tr => decide (projKey cols uk tr = projKey cols uk s)) = false := by
      simp only [List.any_eq_false, decide_eq_true_eq]
      intro tr htr h
      exact hany ⟨tr, htr, h⟩
    rw [if_neg (by simp [hb])]
    constructor
    · rw [keysOf_append]
      simp [keysOf, projKey_padRow]
    · unfold keysOf
      intro hmem
      obtain ⟨tr, htr, h⟩ := List.mem_map.mp hmem
      exact hany ⟨tr, htr, h⟩

lemma ignoreRow_keys_or (cols uk : List String) (t : List (List Value)) (s : List Value) :
    keysOf cols uk (ignoreRow cols uk t s) = keysOf cols uk t
      ∨ (keysOf cols uk (ignoreRow cols uk t s) = keysOf cols uk t ++ [projKey cols uk s]
          ∧ projKey cols uk s ∉ keysOf cols uk t) := by
  unfold ignoreRow
  by_cases hany : ∃ tr ∈ t, projKey cols uk tr = projKey cols uk s
  · left
    have hb : (t.any fun tr => decide (projKey cols uk tr = projKey cols uk s)) = true := by
      simp only [List.any_eq_true, decide_eq_true_eq]; exact hany
    rw [if_pos hb]
  · right
    have hb : (t.any fun tr => decide (projKey cols uk tr = projKey cols uk s)) = false := by
      simp only [List.any_eq_false, decide_eq_true_eq]
      intro tr htr h
      exact hany ⟨tr, htr, h⟩
    rw [if_neg (by simp [hb])]
    constructor
    · rw [keysOf_append]
      simp [keysOf, projKey_padRow]
    · unfold keysOf
      intro hmem
      obtain ⟨tr, htr, h⟩ := List.mem_map.mp hmem
      exact hany ⟨tr, htr, h⟩

lemma nodup_of_keys_or {ks ks' : List (List Value)} {k : List Value}
    (h : ks' = ks ∨ (ks' = ks ++ [k] ∧ k ∉ ks)) (hu : ks.Nodup) : ks'.Nodup := by
  rcases h with rfl | ⟨rfl, hk⟩
  · exact hu
  · rw [List.nodup_append]
    exact ⟨hu, List.nodup_singleton _, fun a ha hb => (List.mem_singleton.mp hb ▸ hk) (List.mem_singleton.mp hb ▸ ha)⟩

lemma upsertFold_keyUnique (cols uk : List String) :
    ∀ (rs t : List (List Value)), KeyUnique cols uk t →
      KeyUnique cols uk (rs.foldl (upsertRow cols uk) t) := by
  intro rs
  induction rs with
  | nil => intro t h; exact h
  | cons s rs ih =>
    intro t h
    simp only [List.foldl_cons]
    exact ih _ (nodup_of_keys_or (upsertRow_keys_or cols uk t s) h)

lemma igFold_keyUnique (cols uk : List String) :
    ∀ (rs t : List (List Value)), KeyUnique cols uk t →
      KeyUnique cols uk (rs.foldl (ignoreRow cols uk) t) := by
  intro rs
  induction rs with
  | nil => intro t h; exact h
  | cons s rs ih =>
    intro t h
    simp only [List.foldl_cons]
    exact ih _ (nodup_of_keys_or (ignoreRow_keys_or cols uk t s) h)

/- ## Chunking is transparent to the row-by-row fold -/

lemma chunkGo_join (n : Nat) (hn : 0 < n) :
    ∀ (fuel : Nat) (l : List (List Value)), l.length ≤ fuel → (chunkGo n fuel l).flatten = l := by
  intro fuel
  induction fuel with
  | zero =>
    intro l h
    have : l = [] := List.length_eq_zero.mp (Nat.le_zero.mp h)
    subst this
    rfl
  | succ fuel ih =>
    intro l h
    cases l with
    | nil => rfl
    | cons x xs =>
      simp only [chunkGo, List.flatten_cons]
      rw [ih ((x :: xs).drop n) ?_, List.take_append_drop]
      have hlen : ((x :: xs).drop n).length = (x :: xs).length - n := List.length_drop n _
      rw [hlen]
      omega

lemma foldl_chunksOf (g : List (List Value) → List Value → List (List Value))
    (n : Nat) (hn : 0 < n) (l : List (List Value)) (t : List (List Value)) :
    (chunksOf n l).foldl (fun acc ch => ch.foldl g acc) t = l.foldl g t := by
  conv_rhs => rw [← chunkGo_join n hn l.length l (Nat.le_refl _)]
  rw [List.foldl_flatten]
  rfl

/-- With a positive chunk size, upsert_data is the plain row-by-row fold of
the branch selected by the staged frame's non-key columns. -/
lemma upsert_data_eq (df : Dataset) (uk : List String) (n : Nat) (t : List (List Value))
    (hn : 0 < n) :
    upsert_data df uk n t
      = if (df.cols.filter (fun c => c ∉ uk)).isEmpty then
          df.rows.foldl (ignoreRow df.cols uk) t
        else df.rows.foldl (upsertRow df.cols uk) t := by
  unfold upsert_data
  by_cases h : (df.cols.filter (fun c => c ∉ uk)).isEmpty
  · simp only [h, if_true]
    exact foldl_chunksOf (ignoreRow df.cols uk) n hn df.rows t
  · simp only [h, if_false]
    exact foldl_chunksOf (upsertRow df.cols uk) n hn df.rows t

lemma upsertFold_covers (cols uk : List String) (rs t : List (List Value)) :
    ∀ s ∈ rs, projKey cols uk s ∈ keysOf cols uk (rs.foldl (upsertRow cols uk) t) := by
  intro s hs
  rw [upsertFold_char, keysOf_append, keysOf_map_applyLast]
  by_cases hk : projKey cols uk s ∈ keysOf cols uk t
  · exact List.mem_append_left _ hk
  · obtain ⟨np, hnp, he⟩ := newPart_covers cols uk rs (keysOf cols uk t) s hs hk
    refine List.mem_append_right _ ?_
    unfold keysOf
    exact he ▸ List.mem_map_of_mem _ hnp

lemma igFold_covers (cols uk : List String) (rs t : List (List Value)) :
    ∀ s ∈ rs, projKey cols uk s ∈ keysOf cols uk (rs.foldl (ignoreRow cols uk) t) := by
  intro s hs
  rw [igFold_char, keysOf_append]
  by_cases hk : projKey cols uk s ∈ keysOf cols uk t
  · exact List.mem_append_left _ hk
  · obtain ⟨np, hnp, he⟩ := igNew_covers cols uk rs (keysOf cols uk t) s hs hk
    refine List.mem_append_right _ ?_
    unfold keysOf
    exact he ▸ List.mem_map_of_mem _ hnp

/-- C1: running upsert_data twice with the same staged frame and key set
leaves the target in the state of a single call; the uniqueness constraint is
preserved (no duplicate key rows arise), every staged key ends up present,
and with non-key columns present the single call rewrites each matched target
row with the last staged values for its key (last-writer-wins) and appends
the unmatched keys. -/
theorem upsert_data_idempotent_lastwriter (df : Dataset) (uk : List String) (n : Nat)
    (t : List (List Value)) (hn : 0 < n) (hu : KeyUnique df.cols uk t) :
    upsert_data df uk n (upsert_data df uk n t) = upsert_data df uk n t
    ∧ KeyUnique df.cols uk (upsert_data df uk n t)
    ∧ (∀ s ∈ df.rows, projKey df.cols uk s ∈ keysOf df.cols uk (upsert_data df uk n t))
    ∧ ((df.cols.filter (fun c => c ∉ uk)).isEmpty = false →
        upsert_data df uk n t
          = t.map (applyLast df.cols uk df.rows)
              ++ newPart df.cols uk df.rows (keysOf df.cols uk t)) := by
  have he := upsert_data_eq df uk n t hn
  by_cases h : (df.cols.filter (fun c => c ∉ uk)).isEmpty = true
  · rw [if_pos h] at he
    refine ⟨?_, ?_, ?_, ?_⟩
    · rw [he, upsert_data_eq df uk n _ hn, if_pos h]
      exact igFold_replay df.cols uk df.rows t
    · rw [he]
      exact igFold_keyUnique df.cols uk df.rows t hu
    · intro s hs
      rw [he]
      exact igFold_covers df.cols uk df.rows t s hs
    · intro hf
      rw [h] at hf
      simp at hf
  · rw [if_neg h] at he
    refine ⟨?_, ?_, ?_, ?_⟩
    · rw [he, upsert_data_eq df uk n _ hn, if_neg h]
      exact upsertFold_replay df.cols uk df.rows t
    · rw [he]
      exact upsertFold_keyUnique df.cols uk df.rows t hu
    · intro s hs
      rw [he]
      exact upsertFold_covers df.cols uk df.rows t s hs
    · intro _
      rw [he]
      exact upsertFold_char df.cols uk df.rows t

/-- Witness for C1 at a concrete staged frame, key set, chunk size and
key-unique target table. -/
theorem upsert_data_idempotent_lastwriter_witness :
    0 < 1 ∧ KeyUnique dfUp.cols ["source", "product_id"] t0
    ∧ (upsert_data dfUp ["source", "product_id"] 1 (upsert_data dfUp ["source", "product_id"] 1 t0)
          = upsert_data dfUp ["source", "product_id"] 1 t0
        ∧ KeyUnique dfUp.cols ["source", "product_id"] (upsert_data dfUp ["source", "product_id"] 1 t0)
        ∧ (∀ s ∈ dfUp.rows, projKey dfUp.cols ["source", "product_id"] s
            ∈ keysOf dfUp.cols ["source", "product_id"] (upsert_data dfUp ["source", "product_id"] 1 t0))
        ∧ ((dfUp.cols.filter (fun c => c ∉ ["source", "product_id"])).isEmpty = false →
            upsert_data dfUp ["source", "product_id"] 1 t0
              = t0.map (applyLast dfUp.cols ["source", "product_id"] dfUp.rows)
                  ++ newPart dfUp.cols ["source", "product_id"] dfUp.rows
                      (keysOf dfUp.cols ["source", "product_id"] t0))) :=
  ⟨by decide, by decide,
   upsert_data_idempotent_lastwriter dfUp ["source", "product_id"] 1 t0 (by decide) (by decide)⟩

/-- C7: on a pure-key staged frame (every column is a unique-key column, as
for the incomplete-rows table) upsert_data is insert-ignore: the target rows
are kept verbatim as a prefix, every appended row carries a key that was
absent from the target, and every staged key is present afterwards. -/
theorem pure_key_insert_ignore (df : Dataset) (uk : List String) (n : Nat)
    (t : List (List Value)) (hn : 0 < n)
    (hpure : (df.cols.filter (fun c => c ∉ uk)).isEmpty = true) :
    upsert_data df uk n t = t ++ igNew df.cols uk df.rows (keysOf df.cols uk t)
    ∧ (∀ np ∈ igNew df.cols uk df.rows (keysOf df.cols uk t),
        projKey df.cols uk np ∉ keysOf df.cols uk t)
    ∧ (∀ s ∈ df.rows, projKey df.cols uk s ∈ keysOf df.cols uk (upsert_data df uk n t)) := by
  have he := upsert_data_eq df uk n t hn
  rw [if_pos hpure] at he
  refine ⟨?_, ?_, ?_⟩
  · rw [he]
    exact igFold_char df.cols uk df.rows t
  · intro np hnp
    exact igNew_key_not_mem df.cols uk df.rows _ np hnp
  · intro s hs
    rw [he]
    exact igFold_covers df.cols uk df.rows t s hs

/-- Witness for C7 at a concrete pure-key staged frame and target. -/
theorem pure_key_insert_ignore_witness :
    0 < 1 ∧ (dfUpKeys.cols.filter (fun c => c ∉ ["source", "product_id"])).isEmpty = true
    ∧ (upsert_data dfUpKeys ["source", "product_id"] 1 t0K
          = t0K ++ igNew dfUpKeys.cols ["source", "product_id"] dfUpKeys.rows
              (keysOf dfUpKeys.cols ["source", "product_id"] t0K)
        ∧ (∀ np ∈ igNew dfUpKeys.cols ["source", "product_id"] dfUpKeys.rows
              (keysOf dfUpKeys.cols ["source", "product_id"] t0K),
            projKey dfUpKeys.cols ["source", "product_id"] np
              ∉ keysOf dfUpKeys.cols ["source", "product_id"] t0K)
        ∧ (∀ s ∈ dfUpKeys.rows, projKey dfUpKeys.cols ["source", "product_id"] s
            ∈ keysOf dfUpKeys.cols ["source", "product_id"]
                (upsert_data dfUpKeys ["source", "product_id"] 1 t0K))) :=
  ⟨by decide, by decide,
   pure_key_insert_ignore dfUpKeys ["source", "product_id"] 1 t0K (by decide) (by decide)⟩

/- ## Lemmas about the validation pipeline -/

lemma isEmpty_false_of_ne {α : Type} {l : List α} (h : l ≠ []) : l.isEmpty = false := by
  cases l with
  | nil => exact absurd rfl h
  | cons a l => rfl

lemma cellAt_setCellAtCol (f : Value → Value) :
    ∀ (cols : List String) (r : List Value) (c : String), c ∈ cols →
      cellAt cols (setCellAtCol cols r c f) c = f (cellAt cols r c) := by
  intro cols
  induction cols with
  | nil => intro r c h; simp at h
  | cons c' cs ih =>
    intro r c h
    by_cases hc : c' = c
    · subst hc
      simp [setCellAtCol, cellAt]
    · simp only [setCellAtCol, cellAt, if_neg hc, List.tail_cons]
      refine ih r.tail c ?_
      rcases List.mem_cons.mp h with h1 | h2
      · exact absurd h1.symm hc
      · exact h2

lemma cellAt_append_new (v : Value) :
    ∀ (cols : List String) (r : List Value) (c : String), c ∉ cols →
      cellAt (cols ++ [c]) (padRow cols r ++ [v]) c = v := by
  intro cols
  induction cols with
  | nil => intro r c _; simp [cellAt, padRow]
  | cons c' cs ih =>
    intro r c h
    have hc : c' ≠ c := fun he => h (he ▸ List.mem_cons_self _ _)
    simp only [List.cons_append, padRow, cellAt, if_neg hc, List.tail_cons]
    exact ih r.tail c (fun hm => h (List.mem_cons_of_mem _ hm))

lemma mem_cols_addCol (d : Dataset) (c : String) (v : Value) : c ∈ (addCol d c v).cols := by
  unfold addCol
  by_cases h : c ∈ d.cols
  · rw [if_pos h]
    exact h
  · rw [if_neg h]
    simp

lemma cellAt_addCol (d : Dataset) (c : String) (v : Value) :
    ∀ r ∈ (addCol d c v).rows, cellAt (addCol d c v).cols r c = v := by
  intro r hr
  unfold addCol at hr ⊢
  by_cases h : c ∈ d.cols
  · rw [if_pos h] at hr ⊢
    simp only [List.mem_map] at hr
    obtain ⟨r₀, _, hr₀⟩ := hr
    rw [← hr₀]
    exact cellAt_setCellAtCol _ d.cols r₀ c h
  · rw [if_neg h] at hr ⊢
    simp only [List.mem_map] at hr
    obtain ⟨r₀, _, hr₀⟩ := hr
    rw [← hr₀]
    exact cellAt_append_new v d.cols r₀ c h

lemma pipelineTail_annotated (b : Bundle) (name : String) (df2 : Dataset) (is3 : List String)
    (h : (pipelineTail b name df2 is3).issues ≠ []) :
    "validation_issues" ∈ (pipelineTail b name df2 is3).df.cols
    ∧ ∀ r ∈ (pipelineTail b name df2 is3).df.rows,
        cellAt (pipelineTail b name df2 is3).df.cols r "validation_issues"
          = .str (String.intercalate "\n" (pipelineTail b name df2 is3).issues) := by
  have hi : (pipelineTail b name df2 is3).issues = (tailIssues b name df2 is3).1 := rfl
  have hne : (tailIssues b name df2 is3).1 ≠ [] := by rw [← hi]; exact h
  have hef : (tailIssues b name df2 is3).1.isEmpty = false := isEmpty_false_of_ne hne
  have hdf : (pipelineTail b name df2 is3).df
      = addCol (tailStage2 b name df2 is3).1 "validation_issues"
          (.str (String.intercalate "\n" (tailIssues b name df2 is3).1)) := by
    show (if (tailIssues b name df2 is3).1.isEmpty then (tailStage2 b name df2 is3).1
          else addCol (tailStage2 b name df2 is3).1 "validation_issues"
              (.str (String.intercalate "\n" (tailIssues b name df2 is3).1)))
        = addCol (tailStage2 b name df2 is3).1 "validation_issues"
            (.str (String.intercalate "\n" (tailIssues b name df2 is3).1))
    rw [hef]
    simp
  rw [hdf, hi]
  exact ⟨mem_cols_addCol _ _ _, cellAt_addCol _ _ _⟩

lemma apply_validations_ok_eq (b : Bundle) (df : Dataset) (name wk : String) (vr : VResult)
    (h : apply_validations b df name wk = .ok vr) :
    vr = pipelineTail b name (dateStage b (normalizeCols df)).1
          ((dateStage b (normalizeCols df)).2
            ++ depIssues b (dateStage b (normalizeCols df)).1 name) := by
  simp only [apply_validations, applyRules] at h
  cases hw : weekGate b (dateStage b (normalizeCols df)).1 wk with
  | error e =>
    rw [hw] at h
    simp at h
  | ok u =>
    rw [hw] at h
    simp only [Except.ok.injEq] at h
    exact h.symm

lemma apply_validations_suppressed (b : Bundle) (df : Dataset) (name wk : String) (vr : VResult)
    (h : apply_validations b df name wk = .ok vr) :
    vr.zeroSuppressed = matchesAny skip_zero_check name := by
  rw [apply_validations_ok_eq b df name wk vr h]
  rfl

/- ## C5: the skip-entire-file policy -/

/-- C5: a file whose lowered name contains an entry of skip_entire_file is
recorded as skipped (never failed) and nothing is upserted or uploaded for
it. -/
theorem skip_entire_file_skipped (b : Bundle) (name : String) (df₀ : Dataset)
    (wk folder : String) (hm : matchesAny skip_entire_file name = true) :
    (process_file b name df₀ wk folder).status = Status.skipped
    ∧ (process_file b name df₀ wk folder).upserts = []
    ∧ (process_file b name df₀ wk folder).uploads = [] := by
  unfold process_file
  simp [hm]

/-- Witness for C5: the match is case-insensitive on the file name. -/
theorem skip_entire_file_skipped_witness :
    matchesAny skip_entire_file "GIVA_Ratings_wk3.csv" = true
    ∧ ((process_file noneBundle "GIVA_Ratings_wk3.csv" dfW "05" "wk5/").status = Status.skipped
       ∧ (process_file noneBundle "GIVA_Ratings_wk3.csv" dfW "05" "wk5/").upserts = []
       ∧ (process_file noneBundle "GIVA_Ratings_wk3.csv" dfW "05" "wk5/").uploads = []) :=
  ⟨by decide, skip_entire_file_skipped noneBundle "GIVA_Ratings_wk3.csv" dfW "05" "wk5/" (by decide)⟩

/- ## C3: week mismatch is a skip, not a failure -/

/-- C3 counterexample: a file whose scraped_week column disagrees everywhere
with the expected normalized week is recorded as skipped — not as failed with
a fatal reason — although its rows are indeed never upserted. -/
theorem week_mismatch_skipped_cex :
    (process_file noneBundle "brandx_ratings_wk5.csv" dfC3 "05" "wk5/").status = Status.skipped
    ∧ (process_file noneBundle "brandx_ratings_wk5.csv" dfC3 "05" "wk5/").upserts = [] := by
  decide

/-- C3 amended: a file whose (pre-validation, normalized) scraped_week column
does not contain the run's expected week is recorded as skipped, and none of
its rows reach the upsert engine or the object store. -/
theorem week_mismatch_skipped_not_upserted (b : Bundle) (name : String) (df₀ : Dataset)
    (wk folder : String) (hmiss : wkMismatch wk name df₀ = true) :
    (process_file b name df₀ wk folder).status = Status.skipped
    ∧ (process_file b name df₀ wk folder).upserts = []
    ∧ (process_file b name df₀ wk folder).uploads = [] := by
  unfold process_file
  by_cases hs : matchesAny skip_entire_file name = true
  · simp [hs]
  · simp [hs, hmiss]

/-- Witness for the amended C3. -/
theorem week_mismatch_skipped_not_upserted_witness :
    wkMismatch "05" "brandy_ratings_wk9.csv" dfC3 = true
    ∧ ((process_file noneBundle "brandy_ratings_wk9.csv" dfC3 "05" "wk9/").status = Status.skipped
       ∧ (process_file noneBundle "brandy_ratings_wk9.csv" dfC3 "05" "wk9/").upserts = []
       ∧ (process_file noneBundle "brandy_ratings_wk9.csv" dfC3 "05" "wk9/").uploads = []) :=
  ⟨by decide,
   week_mismatch_skipped_not_upserted noneBundle "brandy_ratings_wk9.csv" dfC3 "05" "wk9/"
     (by decide)⟩

/- ## C2: the rating-dependency check is not fatal -/

/-- C2 counterexample: with a bundle whose validate_rating_dependency raises,
apply_validations still returns an ok outcome (no fatal abort), the raised
message is merely recorded as an issue, and a later rule (remove_duplicates)
still runs — it removes one duplicate row. -/
theorem rating_dependency_nonfatal_cex :
    (apply_validations depFailBundle dfC2 "brandy_file.csv" "05").toOption.map
        (fun vr => (vr.issues, vr.removed))
      = some (["rating totals mismatch"], 1) := by
  decide

lemma tailStage_issues (b : Bundle) (df2 : Dataset) (is3 : List String) :
    ∃ tl, (tailStage b df2 is3).2.1 = is3 ++ tl := by
  unfold tailStage dedupStep
  cases hb : b.remove_duplicates with
  | none => exact ⟨[], by simp⟩
  | some g =>
    cases hg : g (cleanTextStep b df2) with
    | ok d => exact ⟨[], by simp [hg]⟩
    | error e' => exact ⟨["remove_duplicates failed: " ++ e'], by simp [hg]⟩

lemma tailStage2_issues (b : Bundle) (name : String) (df2 : Dataset) (is3 : List String) :
    ∃ tl, (tailStage2 b name df2 is3).2 = (tailStage b df2 is3).2.1 ++ tl := by
  unfold tailStage2 correctStep
  cases hb : b.correct_count_overall with
  | none => exact ⟨[], by simp⟩
  | some g =>
    cases hg : g (tailStage b df2 is3).1 name with
    | ok d => exact ⟨[], by simp [hg]⟩
    | error e' => exact ⟨["correct_count_overall failed: " ++ e'], by simp [hg]⟩

lemma tailIssues_issues (b : Bundle) (name : String) (df2 : Dataset) (is3 : List String) :
    ∃ tl, (tailIssues b name df2 is3).1 = (tailStage2 b name df2 is3).2 ++ tl := by
  unfold tailIssues zeroAuditStep
  by_cases hz : matchesAny skip_zero_check name = true
  · exact ⟨[], by simp [hz]⟩
  · cases hb : b.report_zero_ratings with
    | none => exact ⟨[], by simp [hz, hb]⟩
    | some g =>
      cases hg : g (tailStage2 b name df2 is3).1 with
      | ok zs => exact ⟨[], by simp [hz, hb, hg]⟩
      | error e' => exact ⟨["report_zero_ratings failed: " ++ e'], by simp [hz, hb, hg]⟩

lemma pipelineTail_issues_extends (b : Bundle) (name : String) (df2 : Dataset)
    (is3 : List String) :
    ∃ tl, (pipelineTail b name df2 is3).issues = is3 ++ tl := by
  obtain ⟨t1, h1⟩ := tailStage_issues b df2 is3
  obtain ⟨t2, h2⟩ := tailStage2_issues b name df2 is3
  obtain ⟨t3, h3⟩ := tailIssues_issues b name df2 is3
  refine ⟨t1 ++ (t2 ++ t3), ?_⟩
  show (tailIssues b name df2 is3).1 = _
  rw [h3, h2, h1, List.append_assoc, List.append_assoc]

/-- C2 amended: an exception of validate_rating_dependency is recorded as a
plain issue string and the pipeline continues with the remaining rules
(clean_text, remove_duplicates, correct_count_overall, zero audit); the
outcome is ok — not the fatal error channel — provided validate_scraped_week
itself passes.  The file is still failed downstream because the issue list is
non-empty. -/
theorem rating_dependency_recorded_nonfatal (b : Bundle) (df : Dataset) (name wk : String)
    (f : Dataset → String → Except String Unit) (e : String)
    (hdep : b.validate_rating_dependency = some f)
    (hwk : weekGate b (dateStage b (normalizeCols df)).1 wk = .ok ())
    (he : f (dateStage b (normalizeCols df)).1 name = .error e) :
    apply_validations b df name wk
      = .ok (pipelineTail b name (dateStage b (normalizeCols df)).1
              ((dateStage b (normalizeCols df)).2 ++ [e]))
    ∧ e ∈ (pipelineTail b name (dateStage b (normalizeCols df)).1
            ((dateStage b (normalizeCols df)).2 ++ [e])).issues := by
  have hd : depIssues b (dateStage b (normalizeCols df)).1 name = [e] := by
    simp [depIssues, hdep, he]
  constructor
  · simp only [apply_validations, applyRules]
    rw [hwk, hd]
  · obtain ⟨tl, htl⟩ := pipelineTail_issues_extends b name (dateStage b (normalizeCols df)).1
        ((dateStage b (normalizeCols df)).2 ++ [e])
    rw [htl]
    refine List.mem_append_left _ ?_
    exact List.mem_append_right _ (List.mem_singleton.mpr rfl)

/-- Witness for the amended C2 at a concrete raising bundle. -/
theorem rating_dependency_recorded_nonfatal_witness :
    depFailBundle.validate_rating_dependency = some depFailRule
    ∧ weekGate depFailBundle (dateStage depFailBundle (normalizeCols dfC2)).1 "05" = .ok ()
    ∧ depFailRule (dateStage depFailBundle (normalizeCols dfC2)).1 "brandy_file.csv"
        = .error "rating totals mismatch"
    ∧ (apply_validations depFailBundle dfC2 "brandy_file.csv" "05"
        = .ok (pipelineTail depFailBundle "brandy_file.csv"
                (dateStage depFailBundle (normalizeCols dfC2)).1
                ((dateStage depFailBundle (normalizeCols dfC2)).2 ++ ["rating totals mismatch"]))
       ∧ "rating totals mismatch"
          ∈ (pipelineTail depFailBundle "brandy_file.csv"
              (dateStage depFailBundle (normalizeCols dfC2)).1
              ((dateStage depFailBundle (normalizeCols dfC2)).2 ++ ["rating totals mismatch"])).issues) :=
  ⟨rfl, rfl, rfl,
   rating_dependency_recorded_nonfatal depFailBundle dfC2 "brandy_file.csv" "05"
     depFailRule "rating totals mismatch" rfl rfl rfl⟩

/- ## C9: when column names are normalized -/

/-- C9 counterexample: the review-count corrective pass reads the raw column
names.  On a frame whose star column is spelled COUNT_5STAR the pass does
nothing and process_file records no fix, while the same frame with normalized
column names is fixed (count_overall becomes 37): the corrective passes do
not operate on normalized names. -/
theorem normalization_order_cex :
    (fixStep dfU).2 = none
    ∧ (fixStep (normalizeCols dfU)).2 = some 1
    ∧ cellAt (normalizeCols dfU).cols ((fixStep (normalizeCols dfU)).1.rows.getD 0 [])
        "count_overall" = Value.num 37
    ∧ (process_file noneBundle "x_ratings.csv" dfU "05" "wk5/").reviewFixes = none := by
  refine ⟨by decide, by decide, by decide, by decide⟩

/-- C9 amended: column names are normalized at the start of apply_validations
— every bundle rule sees the normalized frame — but the pre-validation
corrective passes of process_file run earlier, on the raw column names: the
review-count pass fires only when all seven lower-case names are already raw
columns, and the source inference reads the raw source column. -/
theorem normalization_before_rules (b : Bundle) (df : Dataset) (name wk : String) :
    apply_validations b df name wk = applyRules b (normalizeCols df) name wk
    ∧ ((fixStep df).2 ≠ none → sevenCols.all (fun c => c ∈ df.cols) = true)
    ∧ ((inferStep name df).2 ≠ none →
        ("source" ∉ df.cols || allNullCol df "source") = true) := by
  refine ⟨rfl, ?_, ?_⟩
  · intro h
    by_cases hc : sevenCols.all (fun c => c ∈ df.cols) = true
    · exact hc
    · exfalso
      apply h
      unfold fixStep
      rw [if_neg (by simp [hc])]
  · intro h
    by_cases hc : ("source" ∉ df.cols || allNullCol df "source") = true
    · exact hc
    · exfalso
      apply h
      unfold inferStep
      rw [if_neg (by simp at hc ⊢; exact hc)]

/-- Witness for the amended C9 at a concrete frame. -/
theorem normalization_before_rules_witness :
    apply_validations noneBundle dfU "x_ratings.csv" "05"
        = applyRules noneBundle (normalizeCols dfU) "x_ratings.csv" "05"
    ∧ ((fixStep dfU).2 ≠ none → sevenCols.all (fun c => c ∈ dfU.cols) = true)
    ∧ ((inferStep "x_ratings.csv" dfU).2 ≠ none →
        ("source" ∉ dfU.cols || allNullCol dfU "source") = true) :=
  normalization_before_rules noneBundle dfU "x_ratings.csv" "05"

/- ## C4: non-fatal issues fail the file with an annotated upload -/

/-- C4: when validation returns with a non-empty issue list, the file is
marked failed with those issues, nothing is upserted, the annotated frame is
written to the object store under the FAILED_ prefix inside the week folder,
and the frame carries a validation_issues column whose every cell is the
newline-joined issue text. -/
theorem nonfatal_issues_failed_annotated (b : Bundle) (name : String) (df₀ : Dataset)
    (wk folder : String) (vr : VResult)
    (hskip : matchesAny skip_entire_file name = false)
    (hmiss : wkMismatch wk name df₀ = false)
    (hv : apply_validations b (wkDf wk name df₀) name wk = .ok vr)
    (hiss : vr.issues ≠ []) :
    (process_file b name df₀ wk folder).status = Status.failed vr.issues
    ∧ (process_file b name df₀ wk folder).upserts = []
    ∧ (process_file b name df₀ wk folder).uploads = [(folder ++ ("FAILED_" ++ name), vr.df)]
    ∧ "validation_issues" ∈ vr.df.cols
    ∧ ∀ r ∈ vr.df.rows, cellAt vr.df.cols r "validation_issues"
        = .str (String.intercalate "\n" vr.issues) := by
  have hef : vr.issues.isEmpty = false := isEmpty_false_of_ne hiss
  have h45 := apply_validations_ok_eq _ _ _ _ _ hv
  have hiss' : (pipelineTail b name (dateStage b (normalizeCols (wkDf wk name df₀))).1
      ((dateStage b (normalizeCols (wkDf wk name df₀))).2
        ++ depIssues b (dateStage b (normalizeCols (wkDf wk name df₀))).1 name)).issues ≠ [] := by
    rw [← h45]
    exact hiss
  have hann := pipelineTail_annotated b name _ _ hiss'
  rw [← h45] at hann
  have hpf : process_file b name df₀ wk folder
      = { status := Status.failed vr.issues,
          uploads := [(folder ++ ("FAILED_" ++ name), vr.df)],
          upserts := [],
          inferredSource := (inferStep name df₀).2,
          reviewFixes := (fixStep (inferStep name df₀).1).2,
          nInput := df₀.rows.length, nComplete := 0, nIncomplete := 0,
          nRemoved := vr.removed, splitBypassed := false,
          zeroAuditRan := vr.zeroRan, zeroAuditSuppressed := vr.zeroSuppressed } := by
    unfold process_file
    simp only [hskip, Bool.false_eq_true, if_false, hmiss]
    rw [hv]
    simp only [hef, Bool.not_false, if_true]
  rw [hpf]
  exact ⟨rfl, rfl, rfl, hann.1, hann.2⟩

/-- Witness for C4: a bundle whose remove_duplicates raises produces a
non-fatal issue, and the file is failed with the annotated upload. -/
theorem nonfatal_issues_failed_annotated_witness :
    matchesAny skip_entire_file "acme_ratings_wk5.csv" = false
    ∧ wkMismatch "05" "acme_ratings_wk5.csv" dfW = false
    ∧ apply_validations dedupFailBundle (wkDf "05" "acme_ratings_wk5.csv" dfW)
        "acme_ratings_wk5.csv" "05" = .ok vrC4
    ∧ vrC4.issues ≠ []
    ∧ ((process_file dedupFailBundle "acme_ratings_wk5.csv" dfW "05" "wk5/").status
          = Status.failed vrC4.issues
       ∧ (process_file dedupFailBundle "acme_ratings_wk5.csv" dfW "05" "wk5/").upserts = []
       ∧ (process_file dedupFailBundle "acme_ratings_wk5.csv" dfW "05" "wk5/").uploads
          = [("wk5/" ++ ("FAILED_" ++ "acme_ratings_wk5.csv"), vrC4.df)]
       ∧ "validation_issues" ∈ vrC4.df.cols
       ∧ ∀ r ∈ vrC4.df.rows, cellAt vrC4.df.cols r "validation_issues"
          = .str (String.intercalate "\n" vrC4.issues)) :=
  ⟨by decide, by decide, by rfl, by decide,
   nonfatal_issues_failed_annotated dedupFailBundle "acme_ratings_wk5.csv" dfW "05" "wk5/"
     vrC4 (by decide) (by decide) (by rfl) (by decide)⟩

/- ## C10: one list drives the split bypass and the zero-audit exemption -/

/-- C10: for every file that passes, the completeness-split bypass decision
of line 220 and the zero-audit suppression decision of line 105 coincide, and
both equal the case-insensitive substring match of the file name against the
single configured list skip_zero_check; when the split is bypassed the single
upsert call loads the whole validated frame into the primary table. -/
theorem skip_zero_single_list (b : Bundle) (name : String) (df₀ : Dataset)
    (wk folder : String)
    (hp : (process_file b name df₀ wk folder).status = Status.passed) :
    (process_file b name df₀ wk folder).splitBypassed
        = (process_file b name df₀ wk folder).zeroAuditSuppressed
    ∧ (process_file b name df₀ wk folder).splitBypassed = matchesAny skip_zero_check name
    ∧ ((process_file b name df₀ wk folder).splitBypassed = true →
        ∃ d, (process_file b name df₀ wk folder).upserts = [("ratings_stage", unique_keys, d)]) := by
  unfold process_file at hp ⊢
  by_cases h1 : matchesAny skip_entire_file name = true
  · rw [if_pos h1] at hp
    exact absurd hp (by simp)
  · rw [if_neg h1] at hp ⊢
    by_cases h2 : wkMismatch wk name df₀ = true
    · rw [if_pos h2] at hp
      exact absurd hp (by simp)
    · rw [if_neg h2] at hp ⊢
      cases hv : apply_validations b (wkDf wk name df₀) name wk with
      | error e =>
        simp only [hv] at hp
        exact absurd hp (by simp)
      | ok vr =>
        have hsup := apply_validations_suppressed _ _ _ _ _ hv
        simp only [hv] at hp ⊢
        by_cases h3 : (!vr.issues.isEmpty) = true
        · rw [if_pos h3] at hp
          exact absurd hp (by simp)
        · rw [if_neg h3] at hp ⊢
          by_cases h4 : matchesAny skip_zero_check name = true
          · rw [if_pos h4] at hp ⊢
            exact ⟨by rw [hsup, h4], by rw [h4], fun _ => ⟨vr.df, rfl⟩⟩
          · rw [if_neg h4] at hp ⊢
            have h4' : matchesAny skip_zero_check name = false := by
              simpa using h4
            by_cases h5 : starCols.all (fun c => c ∈ vr.df.cols) = true
            · rw [if_pos h5] at hp ⊢
              by_cases h6 : (vr.df.rows.filter (fun r => allStarZero vr.df.cols r)).isEmpty = true
              · rw [if_pos h6] at hp ⊢
                exact ⟨by rw [hsup, h4'], by rw [h4'], fun hf => absurd hf (by simp)⟩
              · rw [if_neg h6] at hp ⊢
                by_cases h7 : unique_keys.all (fun c => c ∈ vr.df.cols) = true
                · rw [if_pos h7] at hp ⊢
                  exact ⟨by rw [hsup, h4'], by rw [h4'], fun hf => absurd hf (by simp)⟩
                · rw [if_neg h7] at hp
                  exact absurd hp (by simp)
            · rw [if_neg h5] at hp
              exact absurd hp (by simp)

/-- Witness for C10 at a concrete passed run of a skip_zero_check file. -/
theorem skip_zero_single_list_witness :
    (process_file noneBundle "fancode_ratings_wk5.csv" dfW "05" "wk5/").status = Status.passed
    ∧ ((process_file noneBundle "fancode_ratings_wk5.csv" dfW "05" "wk5/").splitBypassed
          = (process_file noneBundle "fancode_ratings_wk5.csv" dfW "05" "wk5/").zeroAuditSuppressed
       ∧ (process_file noneBundle "fancode_ratings_wk5.csv" dfW "05" "wk5/").splitBypassed
          = matchesAny skip_zero_check "fancode_ratings_wk5.csv"
       ∧ ((process_file noneBundle "fancode_ratings_wk5.csv" dfW "05" "wk5/").splitBypassed = true →
          ∃ d, (process_file noneBundle "fancode_ratings_wk5.csv" dfW "05" "wk5/").upserts
              = [("ratings_stage", unique_keys, d)])) :=
  ⟨by decide,
   skip_zero_single_list noneBundle "fancode_ratings_wk5.csv" dfW "05" "wk5/" (by decide)⟩

/- ## C8: the review-count corrective pass -/

lemma process_file_reviewFixes (b : Bundle) (name : String) (df₀ : Dataset)
    (wk folder : String) :
    (process_file b name df₀ wk folder).reviewFixes = (fixStep (inferStep name df₀).1).2 := by
  unfold process_file
  by_cases h1 : matchesAny skip_entire_file name = true
  · rw [if_pos h1]
  · rw [if_neg h1]
    by_cases h2 : wkMismatch wk name df₀ = true
    · rw [if_pos h2]
    · rw [if_neg h2]
      cases hv : apply_validations b (wkDf wk name df₀) name wk with
      | error e => simp only [hv]
      | ok vr =>
        simp only [hv]
        by_cases h3 : (!vr.issues.isEmpty) = true
        · rw [if_pos h3]
        · rw [if_neg h3]
          by_cases h4 : matchesAny skip_zero_check name = true
          · rw [if_pos h4]
          · rw [if_neg h4]
            by_cases h5 : starCols.all (fun c => c ∈ vr.df.cols) = true
            · rw [if_pos h5]
              by_cases h6 : (vr.df.rows.filter (fun r => allStarZero vr.df.cols r)).isEmpty = true
              · rw [if_pos h6]
              · rw [if_neg h6]
                by_cases h7 : unique_keys.all (fun c => c ∈ vr.df.cols) = true
                · rw [if_pos h7]
                · rw [if_neg h7]
            · rw [if_neg h5]

/-- C8: when all seven involved columns are present after source inference and
at least one row matches the condition (all star buckets zero after fillna,
positive review count), process_file records the number of fixed rows in the
audit map, and every matching row's count_overall is overwritten with its
review_count. -/
theorem review_count_autofix (b : Bundle) (name : String) (df₀ : Dataset) (wk folder : String)
    (h7 : sevenCols.all (fun c => c ∈ (inferStep name df₀).1.cols) = true)
    (hfix : 0 < fixCountOf (inferStep name df₀).1) :
    (process_file b name df₀ wk folder).reviewFixes = some (fixCountOf (inferStep name df₀).1)
    ∧ ∀ i : Nat, i < (inferStep name df₀).1.rows.length →
        fixCond (inferStep name df₀).1.cols ((inferStep name df₀).1.rows.getD i []) = true →
        cellAt (inferStep name df₀).1.cols ((fixStep (inferStep name df₀).1).1.rows.getD i [])
            "count_overall"
          = cellAt (inferStep name df₀).1.cols ((inferStep name df₀).1.rows.getD i [])
              "review_count" := by
  have hov : "count_overall" ∈ (inferStep name df₀).1.cols := by
    have := List.all_eq_true.mp h7 "count_overall" (by simp [sevenCols])
    exact of_decide_eq_true this
  constructor
  · rw [process_file_reviewFixes]
    unfold fixStep
    rw [if_pos h7]
    show (if 0 < fixCountOf (inferStep name df₀).1
          then some (fixCountOf (inferStep name df₀).1) else none) = _
    rw [if_pos hfix]
  · intro i hi hcond
    have hrows : (fixStep (inferStep name df₀).1).1.rows
        = (inferStep name df₀).1.rows.map (fixRow (inferStep name df₀).1.cols) := by
      unfold fixStep
      rw [if_pos h7]
    rw [hrows]
    have hmap : ((inferStep name df₀).1.rows.map (fixRow (inferStep name df₀).1.cols)).getD i []
        = fixRow (inferStep name df₀).1.cols ((inferStep name df₀).1.rows.getD i []) := by
      have h1 : (inferStep name df₀).1.rows[i]? = some ((inferStep name df₀).1.rows[i]) :=
        List.getElem?_eq_getElem hi
      have h2 : (inferStep name df₀).1.rows.getD i [] = (inferStep name df₀).1.rows[i] := by
        simp [List.getD_eq_getElem?_getD, h1]
      simp [List.getD_eq_getElem?_getD, List.getElem?_map, h1, h2]
    rw [hmap]
    unfold fixRow
    rw [if_pos hcond]
    exact cellAt_setCellAtCol _ _ _ _ hov

/-- Witness for C8: review count 37, all star buckets zero, one row fixed and
its overall count overwritten with 37. -/
theorem review_count_autofix_witness :
    sevenCols.all (fun c => c ∈ (inferStep "acme_ratings.csv" dfFix).1.cols) = true
    ∧ 0 < fixCountOf (inferStep "acme_ratings.csv" dfFix).1
    ∧ ((process_file noneBundle "acme_ratings.csv" dfFix "05" "wk5/").reviewFixes
          = some (fixCountOf (inferStep "acme_ratings.csv" dfFix).1)
       ∧ ∀ i : Nat, i < (inferStep "acme_ratings.csv" dfFix).1.rows.length →
          fixCond (inferStep "acme_ratings.csv" dfFix).1.cols
              ((inferStep "acme_ratings.csv" dfFix).1.rows.getD i []) = true →
          cellAt (inferStep "acme_ratings.csv" dfFix).1.cols
              ((fixStep (inferStep "acme_ratings.csv" dfFix).1).1.rows.getD i [])
              "count_overall"
            = cellAt (inferStep "acme_ratings.csv" dfFix).1.cols
                ((inferStep "acme_ratings.csv" dfFix).1.rows.getD i [])
                "review_count")
    ∧ cellAt (inferStep "acme_ratings.csv" dfFix).1.cols
        ((fixStep (inferStep "acme_ratings.csv" dfFix).1).1.rows.getD 0 [])
        "count_overall" = Value.num 37 :=
  ⟨by decide, by decide,
   review_count_autofix noneBundle "acme_ratings.csv" dfFix "05" "wk5/" (by decide) (by decide),
   by decide⟩

/- ## C6: row-count conservation through the pipeline -/

lemma len_mapCol (d : Dataset) (c : String) (f : Value → Value) :
    (mapCol d c f).rows.length = d.rows.length := by
  simp [mapCol]

lemma len_addCol (d : Dataset) (c : String) (v : Value) :
    (addCol d c v).rows.length = d.rows.length := by
  unfold addCol
  split <;> simp

lemma len_inferStep (name : String) (d : Dataset) :
    (inferStep name d).1.rows.length = d.rows.length := by
  unfold inferStep
  split
  · exact len_addCol d "source" _
  · rfl

lemma len_fixStep (d : Dataset) : (fixStep d).1.rows.length = d.rows.length := by
  unfold fixStep
  split
  · simp
  · rfl

lemma len_weekStep (wk : String) (d : Dataset) :
    (weekStep wk d).1.rows.length = d.rows.length := by
  unfold weekStep
  split
  · exact len_mapCol d "scraped_week" _
  · rfl

lemma len_wkDf (wk name : String) (d : Dataset) :
    (wkDf wk name d).rows.length = d.rows.length := by
  unfold wkDf preDf
  rw [len_weekStep, len_fixStep, len_inferStep]

lemma len_cleanProductStep (b : Bundle) (d : Dataset) :
    (cleanProductStep b d).rows.length = d.rows.length := by
  unfold cleanProductStep
  cases b.clean_product_id with
  | none => rfl
  | some f =>
    simp only []
    by_cases hc : "product_id" ∈ d.cols
    · rw [if_pos hc]
      exact len_mapCol d "product_id" _
    · rw [if_neg hc]

lemma len_cleanTextStep (b : Bundle) (d : Dataset) :
    (cleanTextStep b d).rows.length = d.rows.length := by
  unfold cleanTextStep
  cases b.clean_text with
  | none => rfl
  | some f =>
    have hgen : ∀ (cs : List String) (d : Dataset),
        ((cs.foldl (fun d c => if c ∈ d.cols then mapCol d c f else d) d).rows.length
          = d.rows.length) := by
      intro cs
      induction cs with
      | nil => intro d; rfl
      | cons c cs ih =>
        intro d
        simp only [List.foldl_cons]
        rw [ih]
        split
        · exact len_mapCol d c _
        · rfl
    exact hgen textCols d

lemma len_dateStage (b : Bundle) (dfn : Dataset)
    (hsd : ∀ (f : Dataset → String → String → String → Except String Dataset)
        (d : Dataset) (c1 c2 c3 : String) (d' : Dataset), b.standardize_date = some f →
        f d c1 c2 c3 = .ok d' → d'.rows.length = d.rows.length) :
    (dateStage b dfn).1.rows.length = dfn.rows.length := by
  unfold dateStage standardizeStep
  cases hb : b.standardize_date with
  | none => exact len_cleanProductStep b dfn
  | some f =>
    simp only []
    by_cases hc : "scraped_date" ∈ (cleanProductStep b dfn).cols
    · rw [if_pos hc]
      cases hf : f (cleanProductStep b dfn) "scraped_date" "scraped_week" "scraped_year" with
      | ok d =>
        simp only [hf]
        rw [hsd f (cleanProductStep b dfn) _ _ _ d hb hf]
        exact len_cleanProductStep b dfn
      | error e =>
        simp only [hf]
        exact len_cleanProductStep b dfn
    · rw [if_neg hc]
      exact len_cleanProductStep b dfn

lemma tailStage_len (b : Bundle) (df2 : Dataset) (is3 : List String)
    (hrd : ∀ (f : Dataset → Except String Dataset) (d d' : Dataset),
        b.remove_duplicates = some f → f d = .ok d' → d'.rows.length ≤ d.rows.length) :
    (tailStage b df2 is3).1.rows.length + (tailStage b df2 is3).2.2 = df2.rows.length := by
  unfold tailStage dedupStep
  cases hb : b.remove_duplicates with
  | none =>
    show (cleanTextStep b df2).rows.length + 0 = df2.rows.length
    rw [Nat.add_zero]
    exact len_cleanTextStep b df2
  | some g =>
    simp only []
    cases hg : g (cleanTextStep b df2) with
    | ok d =>
      simp only [hg]
      have hle := hrd g (cleanTextStep b df2) d hb hg
      have hct := len_cleanTextStep b df2
      omega
    | error e =>
      simp only [hg]
      have hct := len_cleanTextStep b df2
      omega

lemma tailStage2_len (b : Bundle) (name : String) (df2 : Dataset) (is3 : List String)
    (hcc : ∀ (f : Dataset → String → Except String Dataset) (d : Dataset) (nm : String)
        (d' : Dataset), b.correct_count_overall = some f → f d nm = .ok d' →
        d'.rows.length = d.rows.length) :
    (tailStage2 b name df2 is3).1.rows.length = (tailStage b df2 is3).1.rows.length := by
  unfold tailStage2 correctStep
  cases hb : b.correct_count_overall with
  | none => rfl
  | some g =>
    simp only []
    cases hg : g (tailStage b df2 is3).1 name with
    | ok d =>
      simp only [hg]
      exact hcc g (tailStage b df2 is3).1 name d hb hg
    | error e =>
      simp only [hg]

lemma pipelineTail_len (b : Bundle) (name : String) (df2 : Dataset) (is3 : List String)
    (hrd : ∀ (f : Dataset → Except String Dataset) (d d' : Dataset),
        b.remove_duplicates = some f → f d = .ok d' → d'.rows.length ≤ d.rows.length)
    (hcc : ∀ (f : Dataset → String → Except String Dataset) (d : Dataset) (nm : String)
        (d' : Dataset), b.correct_count_overall = some f → f d nm = .ok d' →
        d'.rows.length = d.rows.length) :
    (pipelineTail b name df2 is3).df.rows.length + (pipelineTail b name df2 is3).removed
      = df2.rows.length := by
  have hdf : (pipelineTail b name df2 is3).df.rows.length
      = (tailStage2 b name df2 is3).1.rows.length := by
    show (if (tailIssues b name df2 is3).1.isEmpty then (tailStage2 b name df2 is3).1
          else addCol (tailStage2 b name df2 is3).1 "validation_issues"
              (.str (String.intercalate "\n" (tailIssues b name df2 is3).1))).rows.length = _
    split
    · rfl
    · exact len_addCol _ _ _
  have hrem : (pipelineTail b name df2 is3).removed = (tailStage b df2 is3).2.2 := rfl
  rw [hdf, hrem, tailStage2_len b name df2 is3 hcc]
  exact tailStage_len b df2 is3 hrd

lemma validated_len (b : Bundle) (df : Dataset) (name wk : String) (vr : VResult)
    (hsd : ∀ (f : Dataset → String → String → String → Except String Dataset)
        (d : Dataset) (c1 c2 c3 : String) (d' : Dataset), b.standardize_date = some f →
        f d c1 c2 c3 = .ok d' → d'.rows.length = d.rows.length)
    (hrd : ∀ (f : Dataset → Except String Dataset) (d d' : Dataset),
        b.remove_duplicates = some f → f d = .ok d' → d'.rows.length ≤ d.rows.length)
    (hcc : ∀ (f : Dataset → String → Except String Dataset) (d : Dataset) (nm : String)
        (d' : Dataset), b.correct_count_overall = some f → f d nm = .ok d' →
        d'.rows.length = d.rows.length)
    (hv : apply_validations b df name wk = .ok vr) :
    vr.df.rows.length + vr.removed = df.rows.length := by
  rw [apply_validations_ok_eq _ _ _ _ _ hv]
  rw [pipelineTail_len b name _ _ hrd hcc]
  rw [len_dateStage b (normalizeCols df) hsd]
  rfl

lemma filter_split_len {α : Type} (p : α → Bool) (l : List α) :
    (l.filter (fun x => !p x)).length + (l.filter p).length = l.length := by
  induction l with
  | nil => rfl
  | cons x xs ih =>
    simp only [List.filter_cons]
    cases hx : p x <;> simp <;> omega

/-- C6: for every processed file the complete-row count plus the
incomplete-row count plus the removed-duplicate count never exceeds the input
row count, and equals it exactly on every passed file (no rule drops rows
other than duplicate removal; the fatal rules raise instead of dropping).
The bundle hypotheses record the §4.2 rule contracts: standardize_date and
correct_count_overall are row-preserving and remove_duplicates only removes
rows. -/
theorem row_count_partition_conservation (b : Bundle) (name : String) (df₀ : Dataset)
    (wk folder : String)
    (hsd : ∀ (f : Dataset → String → String → String → Except String Dataset)
        (d : Dataset) (c1 c2 c3 : String) (d' : Dataset), b.standardize_date = some f →
        f d c1 c2 c3 = .ok d' → d'.rows.length = d.rows.length)
    (hrd : ∀ (f : Dataset → Except String Dataset) (d d' : Dataset),
        b.remove_duplicates = some f → f d = .ok d' → d'.rows.length ≤ d.rows.length)
    (hcc : ∀ (f : Dataset → String → Except String Dataset) (d : Dataset) (nm : String)
        (d' : Dataset), b.correct_count_overall = some f → f d nm = .ok d' →
        d'.rows.length = d.rows.length) :
    ((process_file b name df₀ wk folder).nComplete
      + (process_file b name df₀ wk folder).nIncomplete
      + (process_file b name df₀ wk folder).nRemoved
      ≤ (process_file b name df₀ wk folder).nInput)
    ∧ ((process_file b name df₀ wk folder).status = Status.passed →
        (process_file b name df₀ wk folder).nComplete
          + (process_file b name df₀ wk folder).nIncomplete
          + (process_file b name df₀ wk folder).nRemoved
          = (process_file b name df₀ wk folder).nInput) := by
  unfold process_file
  by_cases h1 : matchesAny skip_entire_file name = true
  · rw [if_pos h1]
    exact ⟨by simp, fun hp => absurd hp (by simp)⟩
  · rw [if_neg h1]
    by_cases h2 : wkMismatch wk name df₀ = true
    · rw [if_pos h2]
      exact ⟨by simp, fun hp => absurd hp (by simp)⟩
    · rw [if_neg h2]
      cases hv : apply_validations b (wkDf wk name df₀) name wk with
      | error e =>
        simp only [hv]
        exact ⟨by simp, fun hp => absurd hp (by simp)⟩
      | ok vr =>
        have hvl : vr.df.rows.length + vr.removed = (wkDf wk name df₀).rows.length :=
          validated_len b (wkDf wk name df₀) name wk vr hsd hrd hcc hv
        have hwl : (wkDf wk name df₀).rows.length = df₀.rows.length :=
          len_wkDf wk name df₀
        simp only [hv]
        by_cases h3 : (!vr.issues.isEmpty) = true
        · rw [if_pos h3]
          refine ⟨?_, fun hp => absurd hp (by simp)⟩
          show 0 + 0 + vr.removed ≤ df₀.rows.length
          omega
        · rw [if_neg h3]
          by_cases h4 : matchesAny skip_zero_check name = true
          · rw [if_pos h4]
            refine ⟨?_, fun _ => ?_⟩
            · show vr.df.rows.length + 0 + vr.removed ≤ df₀.rows.length
              omega
            · show vr.df.rows.length + 0 + vr.removed = df₀.rows.length
              omega
          · rw [if_neg h4]
            by_cases h5 : starCols.all (fun c => c ∈ vr.df.cols) = true
            · rw [if_pos h5]
              have hsplit := filter_split_len (fun r => allStarZero vr.df.cols r) vr.df.rows
              by_cases h6 : (vr.df.rows.filter (fun r => allStarZero vr.df.cols r)).isEmpty = true
              · rw [if_pos h6]
                have h6' : (vr.df.rows.filter (fun r => allStarZero vr.df.cols r)).length = 0 := by
                  cases hfe : vr.df.rows.filter (fun r => allStarZero vr.df.cols r) with
                  | nil => simp [hfe]
                  | cons a t =>
                    rw [hfe] at h6
                    simp at h6
                refine ⟨?_, fun _ => ?_⟩
                · show (vr.df.rows.filter (fun r => !allStarZero vr.df.cols r)).length + 0
                      + vr.removed ≤ df₀.rows.length
                  omega
                · show (vr.df.rows.filter (fun r => !allStarZero vr.df.cols r)).length + 0
                      + vr.removed = df₀.rows.length
                  omega
              · rw [if_neg h6]
                by_cases h7 : unique_keys.all (fun c => c ∈ vr.df.cols) = true
                · rw [if_pos h7]
                  refine ⟨?_, fun _ => ?_⟩
                  · show (vr.df.rows.filter (fun r => !allStarZero vr.df.cols r)).length
                        + (vr.df.rows.filter (fun r => allStarZero vr.df.cols r)).length
                        + vr.removed ≤ df₀.rows.length
                    omega
                  · show (vr.df.rows.filter (fun r => !allStarZero vr.df.cols r)).length
                        + (vr.df.rows.filter (fun r => allStarZero vr.df.cols r)).length
                        + vr.removed = df₀.rows.length
                    omega
                · rw [if_neg h7]
                  refine ⟨?_, fun hp => absurd hp (by simp)⟩
                  show 0 + 0 + vr.removed ≤ df₀.rows.length
                  omega
            · rw [if_neg h5]
              refine ⟨?_, fun hp => absurd hp (by simp)⟩
              show 0 + 0 + vr.removed ≤ df₀.rows.length
              omega

/-- Witness for C6 at a concrete passed run (one complete row, one incomplete
row, no duplicates removed): 1 + 1 + 0 = 2. -/
theorem row_count_partition_conservation_witness :
    ((process_file noneBundle "acme_ratings_wk5.csv" dfW "05" "wk5/").nComplete
      + (process_file noneBundle "acme_ratings_wk5.csv" dfW "05" "wk5/").nIncomplete
      + (process_file noneBundle "acme_ratings_wk5.csv" dfW "05" "wk5/").nRemoved
      ≤ (process_file noneBundle "acme_ratings_wk5.csv" dfW "05" "wk5/").nInput)
    ∧ ((process_file noneBundle "acme_ratings_wk5.csv" dfW "05" "wk5/").status = Status.passed →
        (process_file noneBundle "acme_ratings_wk5.csv" dfW "05" "wk5/").nComplete
          + (process_file noneBundle "acme_ratings_wk5.csv" dfW "05" "wk5/").nIncomplete
          + (process_file noneBundle "acme_ratings_wk5.csv" dfW "05" "wk5/").nRemoved
          = (process_file noneBundle "acme_ratings_wk5.csv" dfW "05" "wk5/").nInput) :=
  row_count_partition_conservation noneBundle "acme_ratings_wk5.csv" dfW "05" "wk5/"
    (fun f d c1 c2 c3 d' hb => by simp [noneBundle] at hb)
    (fun f d d' hb => by simp [noneBundle] at hb)
    (fun f d nm d' hb => by simp [noneBundle] at hb)
